import Mathlib

/-!
# simplerpc: integer / blob / string codec and request dispatcher

A shallow embedding of `builtin_serialization.go` and `server.go`.

* A Go `byte` is a `Fin 256`; bit operations are carried out on the underlying
  natural number and brought back with `byte`, the Go conversion `byte(x)`.
* A Go `[]byte` is a `Slice`: `none` is the `nil` slice, `some l` is a non-nil
  slice holding the bytes `l`.
* `int64` is `Int`, `uint64` is `Nat`; conversions and arithmetic that can wrap
  in Go wrap here too (`uint64`, `int64`, `wrapInt64`, `wrapUint64`).
* Run-time panics of Go (index and slice bounds) are the `Fault` results of the
  `Except Fault` functions.
-/

namespace SimpleRpc

/-! ## Go primitives -/

/-- A Go byte. -/
abbrev Byte := Fin 256

/-- A Go byte slice by value: `none` is the nil slice. -/
abbrev Slice := Option (List Byte)

/-- A Go string, as its sequence of bytes. -/
abbrev GoString := List Byte

/-- Run-time panics of the Go code. -/
inductive Fault where
  | indexOutOfRange
  | sliceBoundsOutOfRange
  deriving DecidableEq, Repr

instance instDecidableEqExcept {ε α : Type} [DecidableEq ε] [DecidableEq α] :
    DecidableEq (Except ε α)
  | .ok a, .ok b => if h : a = b then isTrue (by rw [h]) else isFalse (by simpa using h)
  | .error a, .error b => if h : a = b then isTrue (by rw [h]) else isFalse (by simpa using h)
  | .ok _, .error _ => isFalse (by simp)
  | .error _, .ok _ => isFalse (by simp)

/-- The Go conversion `byte(x)` of a non-negative integer: truncation to 8 bits. -/
def byte (n : Nat) : Byte := ⟨n % 256, Nat.mod_lt n (by decide)⟩

/-- The Go conversion `uint64(x)` of a signed integer. -/
def uint64 (x : Int) : Nat := (x % 2 ^ 64).toNat

/-- The Go conversion `int64(x)` of an unsigned integer. -/
def int64 (n : Nat) : Int :=
  if n % 2 ^ 64 < 2 ^ 63 then ((n % 2 ^ 64 : Nat) : Int) else ((n % 2 ^ 64 : Nat) : Int) - 2 ^ 64

/-- Result of an `int64` arithmetic operation: two's complement wrap-around. -/
def wrapInt64 (x : Int) : Int := (x + 2 ^ 63) % 2 ^ 64 - 2 ^ 63

/-- Result of a `uint64` arithmetic operation: wrap-around modulo `2^64`. -/
def wrapUint64 (n : Nat) : Nat := n % 2 ^ 64

/-- The values of the Go type `int64`. -/
def isInt64 (v : Int) : Prop := -2 ^ 63 ≤ v ∧ v < 2 ^ 63

instance (v : Int) : Decidable (isInt64 v) := by unfold isInt64; infer_instance

/-- Go `len(s)`; the nil slice has length 0. -/
def Slice.len (s : Slice) : Nat := (s.getD []).length

/-- Go `append(s, xs...)`: appending nothing to the nil slice gives the nil slice back. -/
def goAppend (s : Slice) (xs : List Byte) : Slice :=
  match s, xs with
  | none, [] => none
  | s, xs => some (s.getD [] ++ xs)

/-- Go `s[i]`. -/
def Slice.index (s : Slice) (i : Nat) : Except Fault Byte :=
  match (s.getD [])[i]? with
  | some b => .ok b
  | none => .error .indexOutOfRange

/-- Go `s[a:]`. Slicing the nil slice (at 0) gives the nil slice, slicing a non-nil
slice gives a non-nil slice, also when it is empty. -/
def Slice.sliceFrom (s : Slice) (a : Int) : Except Fault Slice :=
  if 0 ≤ a ∧ a ≤ (s.len : Int) then .ok (s.map (fun l => l.drop a.toNat))
  else .error .sliceBoundsOutOfRange

/-- Go `s[:b]`. Go checks `b` against the capacity; capacities are not part of this
model, which checks against the length (every use in the code is guarded by the length). -/
def Slice.sliceTo (s : Slice) (b : Int) : Except Fault Slice :=
  if 0 ≤ b ∧ b ≤ (s.len : Int) then .ok (s.map (fun l => l.take b.toNat))
  else .error .sliceBoundsOutOfRange

/-! ## builtin_serialization.go -/

def integer_sermode_00 : Nat := 0x00
def integer_sermode_01 : Nat := 0x20
def integer_sermode_10 : Nat := 0x40
def integer_sermode_11 : Nat := 0x60
def integer_sermode_mask : Nat := integer_sermode_11

/-- The loop `for uv > 3 { bytecount++; tmpbuf[9-bytecount] = byte(uv & 0xff); uv >>= 8 }`
of `SerializeInteger`, on the state `(uv, bytecount, tmpbuf)`. -/
def mode11Loop (uv bytecount : Nat) (tmpbuf : List Byte) : Nat × Nat × List Byte :=
  if uv > 3 then
    mode11Loop (uv >>> 8) (bytecount + 1) (tmpbuf.set (9 - (bytecount + 1)) (byte (uv &&& 0xff)))
  else
    (uv, bytecount, tmpbuf)
termination_by uv
decreasing_by
  simp only [Nat.shiftRight_eq_div_pow]
  omega

/-- Go `SerializeInteger(buf, v)`: serialize an integer to the end of `buf`. -/
def SerializeInteger (buf : Slice) (v : Int) : Slice :=
  -- check sign
  let signmask : Nat := if v < 0 then 0x80 else 0
  let uv : Nat := if v < 0 then uint64 (wrapInt64 (-(wrapInt64 (v + 1)))) else uint64 v
  if uv < 0x20 then
    -- mode 00
    let b := byte (signmask ||| (byte uv).val ||| integer_sermode_00)
    goAppend buf [b]
  else if uv < 0x2000 then
    -- mode 01
    let b1 := byte (uv &&& 0xff)
    let b0 := byte ((byte (uv >>> 8)).val ||| signmask ||| integer_sermode_01)
    goAppend buf [b0, b1]
  else if uv < 0x200000 then
    -- mode 10
    let b2 := byte (uv &&& 0xff)
    let uv := uv >>> 8
    let b1 := byte (uv &&& 0xff)
    let b0 := byte ((byte (uv >>> 8)).val ||| signmask ||| integer_sermode_10)
    goAppend buf [b0, b1, b2]
  else
    -- mode 11: write to a temporary buffer
    let tmpbuf : List Byte := List.replicate 9 0
    let firstbyte : Nat := signmask ||| integer_sermode_11
    let r := mode11Loop uv 0 tmpbuf
    let uv := r.1
    let bytecount := r.2.1
    let tmpbuf := r.2.2
    let firstbyte := firstbyte ||| (byte uv).val
    -- add size to first byte
    let firstbyte := firstbyte ||| (byte ((byte (((bytecount : Int) - 1) % 256).toNat).val <<< 2)).val
    -- add first byte to tmpbuf
    let st := 8 - bytecount
    let tmpbuf := tmpbuf.set st (byte firstbyte)
    -- append bytes
    goAppend buf (tmpbuf.drop st)

/-- The loop `for i := 0; i < size; i++ { v = v*256 + uint64(buf[i]) }` of
`deserializeIntegerImplNoSign`; the first argument counts the iterations left, `size - i`. -/
def combineLoop (buf : Slice) : Nat → Nat → Nat → Except Fault Nat
  | 0, _, v => .ok v
  | n + 1, i, v => do
    let b ← buf.index i
    combineLoop buf n (i + 1) (wrapUint64 (v * 256 + b.val))

/-- Go `deserializeIntegerImplNoSign(buf)`. -/
def deserializeIntegerImplNoSign (buf : Slice) : Except Fault (Slice × Nat) := do
  -- find mode
  let b0 ← buf.index 0
  let mode := b0.val &&& integer_sermode_mask
  let b0 : Nat := b0.val &&& 0x1f
  if mode = integer_sermode_00 then
    return (← buf.sliceFrom 1, b0)
  if mode = integer_sermode_01 then
    if buf.len < 2 then
      return (none, 0)
    let b1 ← buf.index 1
    let ret := wrapUint64 (wrapUint64 (b0 * 256) + b1.val)
    return (← buf.sliceFrom 2, ret)
  if mode = integer_sermode_10 then
    if buf.len < 3 then
      return (none, 0)
    let b1 ← buf.index 1
    let b2 ← buf.index 2
    let ret := wrapUint64 (wrapUint64 (wrapUint64 (wrapUint64 (b0 * 256) + b1.val) * 256) + b2.val)
    return (← buf.sliceFrom 3, ret)
  -- mode 11: get size and check if we have enough bytes
  let size : Nat := ((b0 &&& 0x1c) >>> 2) + 1
  let buf ← buf.sliceFrom 1
  if buf.len < size then
    return (none, 0)
  -- start value
  let v : Nat := b0 &&& 0x3
  -- the 63-bit guard
  let bad ←
    if size = 8 then
      if v ≠ 0 then pure true
      else do
        let b ← buf.index 0
        pure (decide (b.val &&& 0x80 ≠ 0))
    else pure false
  if bad then
    return (none, 0)
  -- combine all bytes of the value
  let v ← combineLoop buf size 0 v
  return (← buf.sliceFrom size, v)

/-- Go `DeserializeInteger(buf)`: the remaining bytes and the value; the nil slice on a
format error. -/
def DeserializeInteger (buf : Slice) : Except Fault (Slice × Int) := do
  if buf.len = 0 then
    return (none, 0)
  -- get negative flag
  let negative := decide ((← buf.index 0).val &&& 0x80 = 0x80)
  -- deserialize as positive
  let (newbuf, uret) ← deserializeIntegerImplNoSign buf
  if newbuf = none then
    return (none, 0)
  if negative then
    let ret := int64 uret
    let ret := wrapInt64 (-ret)
    let ret := wrapInt64 (ret - 1)
    return (newbuf, ret)
  else
    return (newbuf, int64 uret)

/-- Go `SerializeBlob(buf, data)`. -/
def SerializeBlob (buf : Slice) (data : Slice) : Slice :=
  if buf = none then none
  else
    let buf := SerializeInteger buf (int64 data.len)
    goAppend buf (data.getD [])

/-- Go `DeserializeBlob(buf)`: `(newbuf, blobdata)`. -/
def DeserializeBlob (buf : Slice) : Except Fault (Slice × Slice) := do
  let (buf, size) ← DeserializeInteger buf
  if buf = none ∨ size > int64 buf.len then
    return (none, none)
  let blobdata ← buf.sliceTo size
  let newbuf ← buf.sliceFrom size
  return (newbuf, blobdata)

/-- Go `SerializeString(buf, v)`; `[]byte(v)` is a non-nil slice with the bytes of `v`. -/
def SerializeString (buf : Slice) (v : GoString) : Slice :=
  SerializeBlob buf (some v)

/-- Go `DeserializeString(_buf)`: `(buf, ret)`; `string(data)` is the bytes of `data`. -/
def DeserializeString (_buf : Slice) : Except Fault (Slice × GoString) := do
  let (buf, data) ← DeserializeBlob _buf
  if buf = none then
    return (buf, [])
  return (buf, data.getD [])

/-! ## server.go -/

/-- Go `canceller`: the mutex-guarded map from request id to cancel function. A context made by
`context.WithCancel` is named by a number; `cancels` is the map, as an association list with
one pair per key, from request id to the context its cancel function cancels. `fired` records
the invocations of cancel functions, latest first, and `nextCtx` is the next unused context
name. The mutex is not modelled: every method runs as one atomic step. -/
structure canceller where
  cancels : List (Int × Nat)
  fired : List Nat
  nextCtx : Nat
  deriving DecidableEq, Repr

/-- Go `&canceller{cancels: map[int64]context.CancelFunc{}}`. -/
def canceller.new : canceller := { cancels := [], fired := [], nextCtx := 0 }

/-- Go `c.cancels[requestId]` with the comma-ok form: the stored cancel function, if any. -/
def canceller.find (c : canceller) (requestId : Int) : Option Nat :=
  c.cancels.lookup requestId

/-- Go `delete(c.cancels, requestId)`. -/
def canceller.delete (c : canceller) (requestId : Int) : canceller :=
  { c with cancels := c.cancels.filter (fun e => e.1 ≠ requestId) }

/-- Go `(*canceller).addRequest(ctx, requestId)`: the derived context and the new state. -/
def canceller.addRequest (c : canceller) (_ctx : Nat) (requestId : Int) : Nat × canceller :=
  -- create context with cancellation
  let ctx := c.nextCtx
  -- add cancellation
  (ctx, { cancels := (requestId, ctx) :: (c.delete requestId).cancels
          fired := c.fired
          nextCtx := c.nextCtx + 1 })

/-- Go `(*canceller).requestFinished(requestId)`: `cancelled` and the new state. -/
def canceller.requestFinished (c : canceller) (requestId : Int) : Bool × canceller :=
  match c.find requestId with
  | some _ => (false, c.delete requestId)
  | none => (true, c)

/-- Go `(*canceller).cancelRequest(requestId)`: `found` and the new state. -/
def canceller.cancelRequest (c : canceller) (requestId : Int) : Bool × canceller :=
  match c.find requestId with
  | some cancel => (true, { c.delete requestId with fired := cancel :: c.fired })
  | none => (false, c)

/-- Go interface `ServerService`. `CallFunction ctx functionId requestBytes respBytes` also
takes the registry as it is when the handler starts and gives it back as it is when the handler
returns: whatever other requests (a cancel request among them) did to the registry while the
handler was running. -/
structure ServerService where
  GetServiceId : Int
  GetRevision : GoString
  CallFunction : Nat → Int → Slice → Slice → canceller → Slice × canceller

/-- One invocation of a service handler, as recorded in `World.calls`. -/
structure Call where
  serviceId : Int
  ctx : Nat
  functionId : Int
  requestBytes : Slice
  respBytes : Slice
  deriving DecidableEq, Repr

/-- The mutable state around a server: its registry and the record of the handler invocations
made so far, latest first. -/
structure World where
  canceller : canceller
  calls : List Call
  deriving DecidableEq, Repr

/-- Go `Server`; the registry the field `canceller` points to is `World.canceller`. -/
structure Server where
  services : List ServerService

/-- The errors of `NewServer`, by format string and arguments:
`invalidId a` is "could not create server: service at index %d has invalid id" with `a`, and
`sameId a b c` is "could not create server: services at indices %d and %d has the same id: %d"
with `a`, `b`, `c`. -/
inductive NewServerError where
  | invalidId (arg : Int)
  | sameId (arg1 arg2 : Nat) (arg3 : Int)
  deriving DecidableEq, Repr

/-- The loop `for curr := range services` of `NewServer`, from index `curr` on; `rest` is
`services[curr:]`. -/
def validateServices (services : List ServerService) :
    Nat → List ServerService → Option NewServerError
  | _, [] => none
  | curr, s :: rest =>
    -- check if id is valid
    let id := s.GetServiceId
    if id ≤ 0 then some (.invalidId id)
    else
      -- check if id is not repeating
      match (List.range curr).find? (fun i => (services[i]?.map (·.GetServiceId)) = some id) with
      | some i => some (.sameId i curr id)
      | none => validateServices services (curr + 1) rest

/-- Go `NewServer(services)`: the server and its fresh registry, or the error. -/
def NewServer (services : List ServerService) : Except NewServerError (Server × canceller) :=
  match validateServices services 0 services with
  | some err => .error err
  | none => .ok ({ services := services }, canceller.new)

/-- Go `Server.handleServerRequestGetServices(respBytes)`. -/
def Server.handleServerRequestGetServices (srv : Server) (respBytes : Slice) : Slice :=
  -- write array length
  let respBytes := SerializeInteger respBytes (int64 srv.services.length)
  -- write each element
  srv.services.foldl
    (fun respBytes service =>
      SerializeString (SerializeInteger respBytes service.GetServiceId) service.GetRevision)
    respBytes

/-- Go `Server.handleServerRequestCancel(requestBytes)`. -/
def Server.handleServerRequestCancel (_srv : Server) (c : canceller) (requestBytes : Slice) :
    Except Fault canceller := do
  -- read request id to cancel
  let (requestBytes, requestIdToCancel) ← DeserializeInteger requestBytes
  if requestBytes ≠ none then
    return (c.cancelRequest requestIdToCancel).2
  return c

/-- Go `Server.handleServerRequestEcho(requestBytes, respBytes)`; the `time.Sleep` is not
modelled. -/
def Server.handleServerRequestEcho (_srv : Server) (requestBytes : Slice) (respBytes : Slice) :
    Except Fault Slice := do
  -- read wait time
  let (requestBytes, _wait_ms) ← DeserializeInteger requestBytes
  -- copy request bytes
  return goAppend respBytes (requestBytes.getD [])

/-- Go `Server.callFunctionOnServer(functionId, requestBytes, respBytes)`. -/
def Server.callFunctionOnServer (srv : Server) (w : World) (functionId : Int)
    (requestBytes : Slice) (respBytes : Slice) : Except Fault (Slice × World) := do
  -- get services
  if functionId = 0 then
    return (srv.handleServerRequestGetServices respBytes, w)
  -- cancel request
  if functionId = 1 then
    let c ← srv.handleServerRequestCancel w.canceller requestBytes
    return (respBytes, { w with canceller := c })
  -- echo
  if functionId = 2 then
    return (← srv.handleServerRequestEcho requestBytes respBytes, w)
  -- unknown func
  return (none, w)

/-- Go `Server.callFunctionOnService(ctx, service, requestId, functionId, requestBytes,
respBytes)`. -/
def Server.callFunctionOnService (_srv : Server) (w : World) (ctx : Nat)
    (service : ServerService) (requestId functionId : Int) (requestBytes : Slice)
    (respBytes : Slice) : Slice × World :=
  -- set up cancellation
  let (ctx, c) := w.canceller.addRequest ctx requestId
  -- call the function
  let calls := { serviceId := service.GetServiceId, ctx := ctx, functionId := functionId,
                 requestBytes := requestBytes, respBytes := respBytes : Call } :: w.calls
  let (respBytes, c) := service.CallFunction ctx functionId requestBytes respBytes c
  -- finish cancellation
  let (cancelled, c) := c.requestFinished requestId
  -- done
  if cancelled then
    (none, { canceller := c, calls := calls })
  else
    (respBytes, { canceller := c, calls := calls })

/-- Go `Server.handleService(ctx, requestId, serviceId, functionId, requestBytes, respBytes)`. -/
def Server.handleService (srv : Server) (w : World) (ctx : Nat)
    (requestId serviceId functionId : Int) (requestBytes : Slice) (respBytes : Slice) :
    Except Fault (Slice × World) :=
  -- if service id is 0, this request is server-related
  if serviceId = 0 then
    srv.callFunctionOnServer w functionId requestBytes respBytes
  else
    -- find service
    match srv.services.find? (fun service => service.GetServiceId = serviceId) with
    | some service =>
      .ok (srv.callFunctionOnService w ctx service requestId functionId requestBytes respBytes)
    | none =>
      -- not found
      .ok (none, w)

/-- Go `Server.ProcessRequest(ctx, requestBytes, respBytes)`: the response, `none` when there
is none, and the state afterwards. -/
def Server.ProcessRequest (srv : Server) (w : World) (ctx : Nat) (requestBytes : Slice)
    (respBytes : Slice) : Except Fault (Slice × World) := do
  -- parse headers
  let (requestBytes, requestId) ← DeserializeInteger requestBytes
  let (requestBytes, serviceId) ← DeserializeInteger requestBytes
  let (requestBytes, functionId) ← DeserializeInteger requestBytes
  if requestBytes = none then
    return (none, w)
  -- prepare result buffer
  let originalResp := respBytes
  let respBytes :=
    if requestId > 0 then
      -- write sequence id and integer 1 (=success)
      SerializeInteger (SerializeInteger respBytes requestId) 1
    else
      -- negative request id: expecting no response
      none
  -- handle service
  let (respBytes, w) ← srv.handleService w ctx requestId serviceId functionId requestBytes respBytes
  -- if request id <= 0, always return nil
  if requestId ≤ 0 then
    return (none, w)
  -- if request failed but client expects a response, return a failed result instead of nil
  if respBytes = none then
    return (SerializeInteger (SerializeInteger originalResp requestId) 0, w)
  -- done
  return (respBytes, w)

/-! ## Wire layouts, in the words of the specification -/

/-- Sign flag of an integer: 1 when negative. -/
def signBit (v : Int) : Nat := if v < 0 then 1 else 0

/-- Magnitude of an integer: `v` when `v >= 0`, `-(v+1)` when `v < 0`. -/
def magnitude (v : Int) : Nat := if v < 0 then (-(v + 1)).toNat else v.toNat

/-- The integer with sign flag `s` and magnitude `m`: `m`, or `-m-1` when the flag is set. -/
def signedValue (s : Nat) (m : Nat) : Int := if s = 0 then (m : Int) else -(m : Int) - 1

/-- First byte of an encoded integer: `sign(1) | mode(2) | low(5)`. -/
def firstByte (s mode low : Nat) : Byte := byte (s * 128 + mode * 32 + low)

/-- The `k` low bytes of `m`, most significant first. -/
def lowBytesBE : Nat → Nat → List Byte
  | 0, _ => []
  | k + 1, m => lowBytesBE k (m / 256) ++ [byte (m % 256)]

/-- Mode 00: the single byte `s|00|m`. -/
def layout00 (s m : Nat) : List Byte := [firstByte s 0 m]

/-- Mode 01: the two bytes `s|01|(m>>8), m&0xff`. -/
def layout01 (s m : Nat) : List Byte := [firstByte s 1 (m / 256), byte (m % 256)]

/-- Mode 10: the three bytes `s|10|(m>>16), (m>>8)&0xff, m&0xff`. -/
def layout10 (s m : Nat) : List Byte :=
  [firstByte s 2 (m / 65536), byte (m / 256 % 256), byte (m % 256)]

/-- Mode 11 with `k` extra bytes: first byte `s|11|(k-1)<<2|(m>>8k)`, then the `k` low
bytes of `m`, most significant first. -/
def layout11 (s k m : Nat) : List Byte :=
  firstByte s 3 ((k - 1) * 4 + m / 256 ^ k) :: lowBytesBE k m

/-- Big-endian accumulation of bytes onto a start value, without wrap-around. -/
def beFold (v : Nat) (bs : List Byte) : Nat := bs.foldl (fun a b => a * 256 + b.val) v

/-- The bytes of `SerializeInteger([], v)`: the encoding of `v`. -/
def encodeInteger (v : Int) : List Byte := (SerializeInteger (some []) v).getD []

/-- Mode field (bits 6-5) of a first byte. -/
def modeField (b0 : Byte) : Nat := b0.val / 32 % 4

/-- Count field of a mode 11 first byte (bits 4-2): the byte count minus one. -/
def countField (b0 : Byte) : Nat := b0.val / 4 % 8

/-- Length required by the mode in the first byte: 1 for mode 00, 2 for mode 01, 3 for mode 10
and 1 + (count field + 1) for mode 11. -/
def requiredLength (b0 : Byte) : Nat :=
  if modeField b0 = 0 then 1
  else if modeField b0 = 1 then 2
  else if modeField b0 = 2 then 3
  else 1 + (countField b0 + 1)

/-- The failure condition of integer decoding in the words of the specification: the input is
empty, or shorter than the length required by the mode in its first byte, or the mode is 11
with byte count 8 and one of the two low bits of the first byte or the top bit of the first
extra byte is set. -/
def decodeFails : List Byte → Prop
  | [] => True
  | b0 :: tl =>
    (b0 :: tl).length < requiredLength b0 ∨
    (modeField b0 = 3 ∧ countField b0 + 1 = 8 ∧ (b0.val % 4 ≠ 0 ∨ 128 ≤ (tl.headD 0).val))

instance : DecidablePred decodeFails := fun b => by
  cases b <;> unfold decodeFails <;> infer_instance

/-- The header of a request: `requestId`, `serviceId` and `functionId` decoded in that order,
each from the remainder left by the previous one, and the payload left after them; `none`
when one of the three fails to decode. -/
def decodeHeader (requestBytes : Slice) : Option (Int × Int × Int × List Byte) :=
  match DeserializeInteger requestBytes with
  | .ok (some r1, requestId) =>
    match DeserializeInteger (some r1) with
    | .ok (some r2, serviceId) =>
      match DeserializeInteger (some r2) with
      | .ok (some payload, functionId) => some (requestId, serviceId, functionId, payload)
      | _ => none
    | _ => none
  | _ => none

/-- The buffer handed to the dispatch step: the success header `requestId, 1` appended to the
output buffer when a response is expected, the discard (nil) buffer otherwise. -/
def successHeader (out : Slice) (requestId : Int) : Slice :=
  if requestId > 0 then SerializeInteger (SerializeInteger out requestId) 1 else none

/-- The failure response `out ++ SerializeInteger([], requestId) ++ SerializeInteger([], 0)`. -/
def failureResponse (out : Slice) (requestId : Int) : List Byte :=
  out.getD [] ++ encodeInteger requestId ++ encodeInteger 0

/-- The last steps of `ProcessRequest`, on the outcome of the dispatch step: no response for a
one-way request, the failure response when the dispatch produced no result, the built response
otherwise. -/
def finishRequest (out : Slice) (requestId : Int) (r : Except Fault (Slice × World)) :
    Except Fault (Slice × World) :=
  match r with
  | .error e => .error e
  | .ok (respBytes, w) =>
    if requestId ≤ 0 then .ok (none, w)
    else if respBytes = none then
      .ok (SerializeInteger (SerializeInteger out requestId) 0, w)
    else .ok (respBytes, w)

/-- A service for examples: the given id, revision "rev", and a handler that knows no function
id (it returns absent and leaves the registry alone). -/
def absentService (id : Int) : ServerService :=
  { GetServiceId := id
    GetRevision := [114, 101, 118]
    CallFunction := fun _ _ _ _ c => (none, c) }

/-- The one invocation of the handler in a service call made from the state `w`: the handler
of `svc` applied to the context derived by `addRequest`, the function id, the payload, the
buffer `buf` and the registry as `addRequest` left it. Its value is the handler's result and
the registry when the handler returns. -/
def handlerRun (w : World) (ctx : Nat) (svc : ServerService) (requestId functionId : Int)
    (payload : List Byte) (buf : Slice) : Slice × canceller :=
  svc.CallFunction (w.canceller.addRequest ctx requestId).1 functionId (some payload) buf
    (w.canceller.addRequest ctx requestId).2

/-- The record of that invocation. -/
def callRecord (w : World) (ctx : Nat) (svc : ServerService) (requestId functionId : Int)
    (payload : List Byte) (buf : Slice) : Call :=
  { serviceId := svc.GetServiceId
    ctx := (w.canceller.addRequest ctx requestId).1
    functionId := functionId
    requestBytes := some payload
    respBytes := buf }

/-- A service for examples, after the add function of `testService` in server_test.go:
function 2 decodes two integers and appends their sum, every other function id is unknown;
the handler leaves the registry alone. -/
def addService (id : Int) : ServerService :=
  { GetServiceId := id
    GetRevision := [114, 101, 118]
    CallFunction := fun _ functionId requestBytes respBytes c =>
      if functionId = 2 then
        match DeserializeInteger requestBytes with
        | .ok (requestBytes, v1) =>
          match DeserializeInteger requestBytes with
          | .ok (_, v2) => (SerializeInteger respBytes (wrapInt64 (v1 + v2)), c)
          | .error _ => (none, c)
        | .error _ => (none, c)
      else (none, c) }

/-- A service for examples, after the wait function of `testService` in server_test.go:
function 3 returns the buffer as it is, and while it runs the server processes the one-way
cancel request `cancelRequestBytes`; every other function id is unknown. -/
def waitService (id : Int) (cancelRequestBytes : List Byte) : ServerService :=
  { GetServiceId := id
    GetRevision := [114, 101, 118]
    CallFunction := fun _ functionId _ respBytes c =>
      if functionId = 3 then
        match (Server.mk []).ProcessRequest (World.mk c []) 0 (some cancelRequestBytes) none with
        | .ok (_, w) => (respBytes, w.canceller)
        | .error _ => (respBytes, c)
      else (none, c) }

/-- The bytes of `SerializeString([], s)`. -/
def encodeString (s : GoString) : List Byte := (SerializeString (some []) s).getD []

/-- The entries of the list-services body: for each service in registration order,
`SerializeInteger([], serviceId) ++ SerializeString([], revision)`. -/
def serviceEntries : List ServerService → List Byte
  | [] => []
  | s :: rest => encodeInteger s.GetServiceId ++ encodeString s.GetRevision ++ serviceEntries rest

/-- The magnitude laid out at the head of `l`, by big-endian accumulation over the natural
numbers (no wrap-around): the 5 low bits of the first byte followed by 0, 1 or 2 bytes in
modes 00, 01 and 10, the 2 low bits followed by count field + 1 bytes in mode 11. -/
def decodedMagnitude : List Byte → Nat
  | [] => 0
  | b0 :: tl =>
    if modeField b0 = 0 then b0.val % 32
    else if modeField b0 = 1 then beFold (b0.val % 32) (tl.take 1)
    else if modeField b0 = 2 then beFold (b0.val % 32) (tl.take 2)
    else beFold (b0.val % 4) (tl.take (countField b0 + 1))

/-! ## The array accesses of `SerializeInteger`, with the bounds checks of the run time -/

/-- Go `a[i] = b` on an array: a fault when `i` is not an index of `a`. -/
def storeChecked (a : List Byte) (i : Int) (b : Byte) : Except Fault (List Byte) :=
  if 0 ≤ i ∧ i < (a.length : Int) then .ok (a.set i.toNat b) else .error .indexOutOfRange

/-- The loop of the mode 11 block of `SerializeInteger`, as `mode11Loop`, with `bytecount` a
Go `int` and the store `tmpbuf[9-bytecount] = ...` checked. -/
def mode11LoopChecked (uv : Nat) (bytecount : Int) (tmpbuf : List Byte) :
    Except Fault (Nat × Int × List Byte) :=
  if uv > 3 then
    match storeChecked tmpbuf (9 - (bytecount + 1)) (byte (uv &&& 0xff)) with
    | .ok tmpbuf => mode11LoopChecked (uv >>> 8) (bytecount + 1) tmpbuf
    | .error e => .error e
  else
    .ok (uv, bytecount, tmpbuf)
termination_by uv
decreasing_by
  simp only [Nat.shiftRight_eq_div_pow]
  omega

/-- The mode 11 block of `SerializeInteger` for the sign mask `signmask` and the magnitude
`uv`, with every access to the 9-byte array `tmpbuf` checked: the stores of the loop, the
store `tmpbuf[st] = firstbyte` and the slice `tmpbuf[st:]`. -/
def mode11Checked (buf : Slice) (signmask uv : Nat) : Except Fault Slice :=
  let tmpbuf : List Byte := List.replicate 9 0
  let firstbyte : Nat := signmask ||| integer_sermode_11
  match mode11LoopChecked uv 0 tmpbuf with
  | .error e => .error e
  | .ok (uv, bytecount, tmpbuf) =>
    let firstbyte := firstbyte ||| (byte uv).val
    -- add size to first byte
    let firstbyte := firstbyte ||| (byte ((byte ((bytecount - 1) % 256).toNat).val <<< 2)).val
    -- add first byte to tmpbuf
    let st : Int := 8 - bytecount
    match storeChecked tmpbuf st (byte firstbyte) with
    | .error e => .error e
    | .ok tmpbuf =>
      -- append bytes
      if 0 ≤ st ∧ st ≤ (tmpbuf.length : Int) then .ok (goAppend buf (tmpbuf.drop st.toNat))
      else .error .sliceBoundsOutOfRange

/-! ## Bit operations as arithmetic -/

theorem byte_val (n : Nat) : (byte n).val = n % 256 := rfl

theorem and_0xff (n : Nat) : n &&& 0xff = n % 256 := by
  simpa using Nat.and_pow_two_sub_one_eq_mod n 8

theorem shr_8 (n : Nat) : n >>> 8 = n / 256 := by
  simp [Nat.shiftRight_eq_div_pow]

set_option maxRecDepth 100000 in
theorem byte_masks : ∀ n < 256,
    n &&& 0x60 = n / 32 % 4 * 32 ∧ n &&& 0x1f = n % 32 ∧
    (n % 32 &&& 0x1c) >>> 2 = n / 4 % 8 ∧ n % 32 &&& 0x3 = n % 4 ∧
    n &&& 0x80 = n / 128 * 128 := by
  decide

set_option maxRecDepth 100000 in
theorem or_fields : ∀ s < 2, ∀ md < 4, ∀ p < 32,
    (s * 128 ||| p ||| md * 32 = s * 128 + md * 32 + p) ∧
    (p ||| s * 128 ||| md * 32 = s * 128 + md * 32 + p) := by
  decide

set_option maxRecDepth 100000 in
theorem or_fields11 : ∀ s < 2, ∀ u < 4, ∀ c < 8,
    s * 128 ||| 0x60 ||| u ||| (c <<< 2) % 256 = s * 128 + 96 + c * 4 + u := by
  decide

/-! ## The encoder, mode by mode -/

theorem signmask_eq (v : Int) : (if v < 0 then (0x80 : Nat) else 0) = signBit v * 128 := by
  unfold signBit; split <;> rfl

theorem signBit_lt (v : Int) : signBit v < 2 := by
  unfold signBit; split <;> decide

theorem uv_eq (v : Int) (hv : isInt64 v) :
    (if v < 0 then uint64 (wrapInt64 (-(wrapInt64 (v + 1)))) else uint64 v) = magnitude v := by
  unfold isInt64 at hv
  unfold magnitude uint64 wrapInt64
  split <;> omega

theorem magnitude_lt (v : Int) (hv : isInt64 v) : magnitude v < 2 ^ 63 := by
  unfold isInt64 at hv
  unfold magnitude
  split <;> omega

theorem goAppend_cons (buf : Slice) (x : Byte) (xs : List Byte) :
    goAppend buf (x :: xs) = some (buf.getD [] ++ x :: xs) := by
  cases buf <;> rfl

theorem SerializeInteger_mode00 (buf : Slice) (v : Int) (hv : isInt64 v)
    (h : magnitude v < 32) :
    SerializeInteger buf v = some (buf.getD [] ++ layout00 (signBit v) (magnitude v)) := by
  have hs := signBit_lt v
  unfold SerializeInteger
  simp only [signmask_eq, uv_eq v hv]
  rw [if_pos (by simpa using h), goAppend_cons]
  have := (or_fields (signBit v) hs 0 (by decide) (magnitude v) h).1
  simp only [layout00, firstByte, byte_val, integer_sermode_00, Nat.mod_eq_of_lt (show magnitude v < 256 by omega)]
  simp at this
  simp [this]

theorem SerializeInteger_mode01 (buf : Slice) (v : Int) (hv : isInt64 v)
    (h0 : 32 ≤ magnitude v) (h : magnitude v < 8192) :
    SerializeInteger buf v = some (buf.getD [] ++ layout01 (signBit v) (magnitude v)) := by
  have hs := signBit_lt v
  unfold SerializeInteger
  simp only [signmask_eq, uv_eq v hv]
  rw [if_neg (by omega), if_pos (by simpa using h), goAppend_cons]
  have hh : magnitude v / 256 < 32 := by omega
  have := (or_fields (signBit v) hs 1 (by decide) (magnitude v / 256) hh).2
  simp only [layout01, firstByte, byte_val, integer_sermode_01, and_0xff, shr_8,
    Nat.mod_eq_of_lt (show magnitude v / 256 < 256 by omega)]
  simp at this
  simp [this, byte]

theorem SerializeInteger_mode10 (buf : Slice) (v : Int) (hv : isInt64 v)
    (h0 : 8192 ≤ magnitude v) (h : magnitude v < 2097152) :
    SerializeInteger buf v = some (buf.getD [] ++ layout10 (signBit v) (magnitude v)) := by
  have hs := signBit_lt v
  unfold SerializeInteger
  simp only [signmask_eq, uv_eq v hv]
  rw [if_neg (by omega), if_neg (by omega), if_pos (by simpa using h), goAppend_cons]
  have hh : magnitude v / 256 / 256 < 32 := by omega
  have := (or_fields (signBit v) hs 2 (by decide) (magnitude v / 256 / 256) hh).2
  simp only [layout10, firstByte, byte_val, integer_sermode_10, and_0xff, shr_8,
    Nat.mod_eq_of_lt (show magnitude v / 256 / 256 < 256 by omega)]
  simp at this
  have e : magnitude v / 65536 = magnitude v / 256 / 256 := by omega
  simp [this, byte, e]

theorem mode11Loop_gt (uv bc : Nat) (t : List Byte) (h : uv > 3) :
    mode11Loop uv bc t = mode11Loop (uv / 256) (bc + 1) (t.set (8 - bc) (byte (uv % 256))) := by
  rw [mode11Loop, if_pos h, and_0xff, shr_8]
  have e : 9 - (bc + 1) = 8 - bc := by omega
  rw [e]

theorem mode11Loop_le (uv bc : Nat) (t : List Byte) (h : uv ≤ 3) :
    mode11Loop uv bc t = (uv, bc, t) := by
  rw [mode11Loop, if_neg (by omega)]

theorem drop_set_self (t : List Byte) (i : Nat) (b : Byte) (h : i < t.length) :
    (t.set i b).drop i = b :: t.drop (i + 1) := by
  induction t generalizing i with
  | nil => simp at h
  | cons x xs ih =>
    cases i with
    | zero => simp
    | succ j => simpa using ih j (by simpa using h)

theorem take_set_ge (t : List Byte) (i j : Nat) (b : Byte) (h : j ≤ i) :
    (t.set i b).take j = t.take j := by
  induction t generalizing i j with
  | nil => simp
  | cons x xs ih =>
    cases j with
    | zero => simp
    | succ j' =>
      cases i with
      | zero => omega
      | succ i' => simpa using ih i' j' (by omega)

theorem mode11Loop_spec (k : Nat) : ∀ (uv bc : Nat) (t : List Byte), t.length = 9 → bc + k ≤ 8 →
    uv < 4 * 256 ^ k → (k = 0 ∨ 4 * 256 ^ (k - 1) ≤ uv) →
    mode11Loop uv bc t =
      (uv / 256 ^ k, bc + k, t.take (9 - (bc + k)) ++ lowBytesBE k uv ++ t.drop (9 - bc)) := by
  induction k with
  | zero =>
    intro uv bc t _ _ h _
    rw [mode11Loop_le uv bc t (by omega)]
    simp [lowBytesBE]
  | succ k ih =>
    intro uv bc t ht hb h hk
    have hk' : 4 * 256 ^ k ≤ uv := by simpa using hk
    have hpos : 0 < 256 ^ k := Nat.pow_pos (by decide)
    rw [mode11Loop_gt uv bc t (by omega)]
    have h1 : uv / 256 < 4 * 256 ^ k := by
      rw [Nat.div_lt_iff_lt_mul (by decide)]
      calc uv < 4 * 256 ^ (k + 1) := h
        _ = 4 * 256 ^ k * 256 := by ring
    have h2 : k = 0 ∨ 4 * 256 ^ (k - 1) ≤ uv / 256 := by
      rcases Nat.eq_zero_or_pos k with h0 | h0
      · exact Or.inl h0
      · right
        rw [Nat.le_div_iff_mul_le (by decide)]
        obtain ⟨j, rfl⟩ : ∃ j, k = j + 1 := ⟨k - 1, by omega⟩
        calc 4 * 256 ^ (j + 1 - 1) * 256 = 4 * 256 ^ (j + 1) := by simp; ring
          _ ≤ uv := hk'
    rw [ih (uv / 256) (bc + 1) _ (by simpa using ht) (by omega) h1 h2]
    have e1 : 9 - (bc + 1 + k) = 9 - (bc + (k + 1)) := by omega
    have e2 : 9 - (bc + 1) = 8 - bc := by omega
    rw [e1, e2, take_set_ge _ _ _ _ (by omega), drop_set_self _ _ _ (by omega)]
    have e3 : 8 - bc + 1 = 9 - bc := by omega
    rw [e3]
    have e4 : bc + 1 + k = bc + (k + 1) := by omega
    have e5 : uv / 256 / 256 ^ k = uv / 256 ^ (k + 1) := by
      rw [Nat.div_div_eq_div_mul, Nat.pow_succ, Nat.mul_comm]
    simp [lowBytesBE, e4, e5]

theorem mode11_count_bounds (m k : Nat) (hm : m < 2 ^ 63) (h0 : 2097152 ≤ m)
    (hk : m < 4 * 256 ^ k) (hmin : 4 * 256 ^ (k - 1) ≤ m) : 3 ≤ k ∧ k ≤ 8 := by
  constructor
  · by_contra hc
    have : 256 ^ k ≤ 256 ^ 2 := Nat.pow_le_pow_right (by decide) (by omega)
    omega
  · by_contra hc
    have : 256 ^ 8 ≤ 256 ^ (k - 1) := Nat.pow_le_pow_right (by decide) (by omega)
    omega

theorem SerializeInteger_mode11 (buf : Slice) (v : Int) (hv : isInt64 v)
    (h0 : 2097152 ≤ magnitude v) (k : Nat) (hk : magnitude v < 4 * 256 ^ k)
    (hmin : 4 * 256 ^ (k - 1) ≤ magnitude v) :
    SerializeInteger buf v = some (buf.getD [] ++ layout11 (signBit v) k (magnitude v)) := by
  have hs := signBit_lt v
  have hm := magnitude_lt v hv
  obtain ⟨hk3, hk8⟩ := mode11_count_bounds _ k hm h0 hk hmin
  unfold SerializeInteger
  simp only [signmask_eq, uv_eq v hv]
  rw [if_neg (by omega), if_neg (by omega), if_neg (by omega)]
  simp only [mode11Loop_spec k (magnitude v) 0 (List.replicate 9 0) (by simp) (by omega) hk
    (Or.inr hmin)]
  have hu : magnitude v / 256 ^ k < 4 := by
    rw [Nat.div_lt_iff_lt_mul (Nat.pow_pos (by decide))]; exact hk
  have hor := or_fields11 (signBit v) hs (magnitude v / 256 ^ k) hu (k - 1) (by omega)
  have hc : ((((0 + k : Nat) : Int) - 1) % 256).toNat = k - 1 := by omega
  simp only [hc, byte_val, Nat.mod_eq_of_lt (show magnitude v / 256 ^ k < 256 by omega),
    Nat.mod_eq_of_lt (show k - 1 < 256 by omega), integer_sermode_11]
  rw [hor]
  generalize magnitude v = m at *
  generalize signBit v = s at *
  have key : List.drop (8 - (0 + k)) ((List.take (9 - (0 + k)) (List.replicate 9 (0 : Byte)) ++
      lowBytesBE k m ++ List.drop (9 - 0) (List.replicate 9 0)).set (8 - (0 + k))
        (byte (s * 128 + 96 + (k - 1) * 4 + m / 256 ^ k))) = layout11 s k m := by
    interval_cases k <;> simp [List.replicate, layout11, firstByte] <;> congr 1 <;> omega
  rw [key]
  cases buf <;> simp [goAppend, layout11]

/-! ## The decoder, mode by mode -/

theorem beFold_nil (v : Nat) : beFold v [] = v := rfl

theorem beFold_cons (v : Nat) (b : Byte) (bs : List Byte) :
    beFold v (b :: bs) = beFold (v * 256 + b.val) bs := rfl

theorem beFold_eq (v : Nat) (bs : List Byte) :
    beFold v bs = v * 256 ^ bs.length + beFold 0 bs := by
  induction bs generalizing v with
  | nil => simp [beFold]
  | cons b bs ih =>
    rw [beFold_cons, beFold_cons, ih, ih (0 * 256 + b.val)]
    simp [Nat.pow_succ]
    ring

theorem beFold_zero_lt (bs : List Byte) : beFold 0 bs < 256 ^ bs.length := by
  induction bs using List.reverseRecOn with
  | nil => simp [beFold]
  | append_singleton bs b ih =>
    have hb := b.isLt
    simp only [beFold, List.foldl_append, List.foldl_cons, List.foldl_nil, List.length_append,
      List.length_singleton, Nat.pow_succ] at ih ⊢
    omega

theorem beFold_append_singleton (v : Nat) (bs : List Byte) (b : Byte) :
    beFold v (bs ++ [b]) = beFold v bs * 256 + b.val := by
  simp [beFold]

theorem le_beFold (v : Nat) (bs : List Byte) : v ≤ beFold v bs := by
  rw [beFold_eq]
  have : 0 < 256 ^ bs.length := Nat.pow_pos (by decide)
  calc v = v * 1 := by simp
    _ ≤ v * 256 ^ bs.length := Nat.mul_le_mul_left v this
    _ ≤ _ := Nat.le_add_right _ _

theorem combineLoop_eq (l : List Byte) : ∀ (n i v : Nat), i + n ≤ l.length →
    beFold v ((l.drop i).take n) < 2 ^ 64 →
    combineLoop (some l) n i v = .ok (beFold v ((l.drop i).take n)) := by
  intro n
  induction n with
  | zero => intro i v _ _; simp [combineLoop, beFold]
  | succ n ih =>
    intro i v hi hlt
    have hil : i < l.length := by omega
    have hd : l.drop i = l[i] :: l.drop (i + 1) := List.drop_eq_getElem_cons hil
    rw [hd, List.take_succ_cons, beFold_cons] at hlt ⊢
    have hle := le_beFold (v * 256 + (l[i]).val) (List.take n (List.drop (i + 1) l))
    have hw : wrapUint64 (v * 256 + (l[i]).val) = v * 256 + (l[i]).val := by
      unfold wrapUint64; omega
    simp only [combineLoop, Slice.index, Option.getD_some, List.getElem?_eq_getElem hil, bind,
      Except.bind, hw]
    exact ih (i + 1) _ (by omega) hlt

theorem lowBytesBE_length (k m : Nat) : (lowBytesBE k m).length = k := by
  induction k generalizing m with
  | zero => rfl
  | succ k ih => simp [lowBytesBE, ih]

theorem beFold_lowBytesBE (k m v : Nat) : beFold v (lowBytesBE k m) = v * 256 ^ k + m % 256 ^ k := by
  induction k generalizing m with
  | zero => simp [lowBytesBE, beFold, Nat.mod_one]
  | succ k ih =>
    rw [lowBytesBE, beFold_append_singleton, ih, byte_val, Nat.mod_mod]
    have : m % 256 ^ (k + 1) = m % 256 + 256 * (m / 256 % 256 ^ k) := by
      rw [Nat.pow_succ, Nat.mul_comm, Nat.mod_mul]
    rw [this, Nat.pow_succ]
    ring

theorem int64_of_lt (n : Nat) (h : n < 2 ^ 63) : int64 n = (n : Int) := by
  unfold int64; rw [Nat.mod_eq_of_lt (by omega), if_pos h]

theorem signed_ite (b0 : Byte) (r : Slice) (n : Nat) (h : n < 2 ^ 63) :
    (if b0.val &&& 128 = 128 then
        (Except.ok (r, wrapInt64 (wrapInt64 (-(int64 n)) - 1)) : Except Fault (Slice × Int))
      else Except.ok (r, int64 n)) = Except.ok (r, signedValue (b0.val / 128) n) := by
  have hb := b0.isLt
  have hm := (byte_masks b0.val hb).2.2.2.2
  rw [int64_of_lt n h]
  unfold signedValue wrapInt64
  split <;> split <;> first | rfl | omega | (congr 2; omega)

theorem DeserializeInteger_nil : DeserializeInteger none = .ok (none, 0) := rfl

theorem DeserializeInteger_empty : DeserializeInteger (some []) = .ok (none, 0) := rfl

theorem DeserializeInteger_mode00 (b0 : Byte) (tl : List Byte) (h : b0.val / 32 % 4 = 0) :
    DeserializeInteger (some (b0 :: tl)) =
      .ok (some tl, signedValue (b0.val / 128) (b0.val % 32)) := by
  have hb := b0.isLt
  obtain ⟨m1, m2, m3, m4, m5⟩ := byte_masks b0.val hb
  simp [DeserializeInteger, deserializeIntegerImplNoSign, Slice.len, Slice.index, Slice.sliceFrom,
    bind, Except.bind, pure, Except.pure, integer_sermode_mask, integer_sermode_11,
    integer_sermode_00, m1, m2, h]
  exact signed_ite b0 _ _ (by omega)

theorem DeserializeInteger_mode01_short (b0 : Byte) (h : b0.val / 32 % 4 = 1) :
    DeserializeInteger (some [b0]) = .ok (none, 0) := by
  have hb := b0.isLt
  obtain ⟨m1, m2, m3, m4, m5⟩ := byte_masks b0.val hb
  simp [DeserializeInteger, deserializeIntegerImplNoSign, Slice.len, Slice.index, Slice.sliceFrom,
    bind, Except.bind, pure, Except.pure, integer_sermode_mask, integer_sermode_11,
    integer_sermode_00, integer_sermode_01, m1, m2, h]

theorem DeserializeInteger_mode01 (b0 b1 : Byte) (tl : List Byte) (h : b0.val / 32 % 4 = 1) :
    DeserializeInteger (some (b0 :: b1 :: tl)) =
      .ok (some tl, signedValue (b0.val / 128) (b0.val % 32 * 256 + b1.val)) := by
  have hb := b0.isLt
  have hb1 := b1.isLt
  obtain ⟨m1, m2, m3, m4, m5⟩ := byte_masks b0.val hb
  have w1 : wrapUint64 (b0.val % 32 * 256) = b0.val % 32 * 256 := by unfold wrapUint64; omega
  have w2 : wrapUint64 (b0.val % 32 * 256 + b1.val) = b0.val % 32 * 256 + b1.val := by
    unfold wrapUint64; omega
  have a1 : ¬ (tl.length + 1 + 1 < 2) := by omega
  have a2 : (2 : Int) ≤ (tl.length : Int) + 1 + 1 := by omega
  simp [a1, a2, DeserializeInteger, deserializeIntegerImplNoSign, Slice.len, Slice.index, Slice.sliceFrom,
    bind, Except.bind, pure, Except.pure, integer_sermode_mask, integer_sermode_11,
    integer_sermode_00, integer_sermode_01, m1, m2, h, w1, w2]
  exact signed_ite b0 _ (b0.val % 32 * 256 + b1.val) (by omega)

theorem DeserializeInteger_mode10_short (b0 : Byte) (tl : List Byte) (h : b0.val / 32 % 4 = 2)
    (hl : tl.length < 2) : DeserializeInteger (some (b0 :: tl)) = .ok (none, 0) := by
  have hb := b0.isLt
  obtain ⟨m1, m2, m3, m4, m5⟩ := byte_masks b0.val hb
  have h3 : tl.length + 1 < 3 := by omega
  simp [DeserializeInteger, deserializeIntegerImplNoSign, Slice.len, Slice.index, Slice.sliceFrom,
    bind, Except.bind, pure, Except.pure, integer_sermode_mask, integer_sermode_11,
    integer_sermode_00, integer_sermode_01, integer_sermode_10, m1, m2, h, h3]

theorem DeserializeInteger_mode10 (b0 b1 b2 : Byte) (tl : List Byte) (h : b0.val / 32 % 4 = 2) :
    DeserializeInteger (some (b0 :: b1 :: b2 :: tl)) =
      .ok (some tl, signedValue (b0.val / 128) ((b0.val % 32 * 256 + b1.val) * 256 + b2.val)) := by
  have hb := b0.isLt
  have hb1 := b1.isLt
  have hb2 := b2.isLt
  obtain ⟨m1, m2, m3, m4, m5⟩ := byte_masks b0.val hb
  have w1 : wrapUint64 (b0.val % 32 * 256) = b0.val % 32 * 256 := by unfold wrapUint64; omega
  have w2 : wrapUint64 (b0.val % 32 * 256 + b1.val) = b0.val % 32 * 256 + b1.val := by
    unfold wrapUint64; omega
  have w3 : wrapUint64 ((b0.val % 32 * 256 + b1.val) * 256) = (b0.val % 32 * 256 + b1.val) * 256 := by
    unfold wrapUint64; omega
  have w4 : wrapUint64 ((b0.val % 32 * 256 + b1.val) * 256 + b2.val) =
      (b0.val % 32 * 256 + b1.val) * 256 + b2.val := by
    unfold wrapUint64; omega
  have a1 : ¬ (tl.length + 1 + 1 + 1 < 3) := by omega
  have a2 : (3 : Int) ≤ (tl.length : Int) + 1 + 1 + 1 := by omega
  simp [DeserializeInteger, deserializeIntegerImplNoSign, Slice.len, Slice.index, Slice.sliceFrom,
    bind, Except.bind, pure, Except.pure, integer_sermode_mask, integer_sermode_11,
    integer_sermode_00, integer_sermode_01, integer_sermode_10, m1, m2, h, w1, w2, w3, w4, a1, a2]
  exact signed_ite b0 _ ((b0.val % 32 * 256 + b1.val) * 256 + b2.val) (by omega)

theorem DeserializeInteger_mode11_short (b0 : Byte) (tl : List Byte) (h : b0.val / 32 % 4 = 3)
    (hl : tl.length < b0.val / 4 % 8 + 1) : DeserializeInteger (some (b0 :: tl)) = .ok (none, 0) := by
  have hb := b0.isLt
  obtain ⟨m1, m2, m3, m4, m5⟩ := byte_masks b0.val hb
  have a1 : (1 : Int) ≤ (tl.length : Int) + 1 := by omega
  simp [DeserializeInteger, deserializeIntegerImplNoSign, Slice.len, Slice.index, Slice.sliceFrom,
    bind, Except.bind, pure, Except.pure, integer_sermode_mask, integer_sermode_11,
    integer_sermode_00, integer_sermode_01, integer_sermode_10, m1, m2, m3, m4, h, a1, hl]

theorem DeserializeInteger_mode11_guard (b0 b1 : Byte) (tl : List Byte) (h : b0.val / 32 % 4 = 3)
    (h8 : b0.val / 4 % 8 = 7) (hl : 7 ≤ tl.length)
    (hg : b0.val % 4 ≠ 0 ∨ 128 ≤ b1.val) :
    DeserializeInteger (some (b0 :: b1 :: tl)) = .ok (none, 0) := by
  have hb := b0.isLt
  obtain ⟨m1, m2, m3, m4, m5⟩ := byte_masks b0.val hb
  have a1 : (1 : Int) ≤ (tl.length : Int) + 1 + 1 := by omega
  have a2 : ¬ (tl.length + 1 < 8) := by omega
  have a3 : (0 : Int) ≤ (tl.length : Int) + 1 := by omega
  have hb1 := b1.isLt
  have n5 := (byte_masks b1.val hb1).2.2.2.2
  simp only [DeserializeInteger, deserializeIntegerImplNoSign, Slice.len, Slice.index,
    Slice.sliceFrom, bind, Except.bind, pure, Except.pure, integer_sermode_mask,
    integer_sermode_11, integer_sermode_00, integer_sermode_01, integer_sermode_10]
  simp [m1, m2, m3, m4, h, h8, a1, a2, a3]
  rcases hg with hg | hg
  · simp [hg]
  · have : ¬ (b1.val &&& 128 = 0) := by omega
    simp [this]

theorem beFold_mode11_lt (b0 : Byte) (tl : List Byte) (hl : b0.val / 4 % 8 + 1 ≤ tl.length)
    (hg : b0.val / 4 % 8 = 7 → b0.val % 4 = 0 ∧ (tl.headD 0).val < 128) :
    beFold (b0.val % 4) (tl.take (b0.val / 4 % 8 + 1)) < 2 ^ 63 := by
  have hlen : (tl.take (b0.val / 4 % 8 + 1)).length = b0.val / 4 % 8 + 1 := by
    simp [List.length_take]; omega
  by_cases h8 : b0.val / 4 % 8 = 7
  · obtain ⟨hz, hh⟩ := hg h8
    cases tl with
    | nil => simp at hl
    | cons b1 tl =>
      simp only [List.headD_cons] at hh
      rw [List.take_succ_cons, beFold_cons, beFold_eq, hz]
      have hl2 : (tl.take (b0.val / 4 % 8)).length = 7 := by
        simp only [List.length_cons] at hl
        simp [List.length_take]; omega
      have := beFold_zero_lt (tl.take (b0.val / 4 % 8))
      rw [hl2] at this ⊢
      omega
  · rw [beFold_eq, hlen]
    have := beFold_zero_lt (tl.take (b0.val / 4 % 8 + 1))
    rw [hlen] at this
    have hp : 256 ^ (b0.val / 4 % 8 + 1) ≤ 256 ^ 7 := Nat.pow_le_pow_right (by decide) (by omega)
    have h4 : b0.val % 4 < 4 := Nat.mod_lt _ (by decide)
    calc b0.val % 4 * 256 ^ (b0.val / 4 % 8 + 1) + beFold 0 (tl.take (b0.val / 4 % 8 + 1))
        < b0.val % 4 * 256 ^ (b0.val / 4 % 8 + 1) + 256 ^ (b0.val / 4 % 8 + 1) := by omega
      _ = (b0.val % 4 + 1) * 256 ^ (b0.val / 4 % 8 + 1) := by ring
      _ ≤ 4 * 256 ^ (b0.val / 4 % 8 + 1) := Nat.mul_le_mul_right _ (by omega)
      _ ≤ 4 * 256 ^ 7 := Nat.mul_le_mul_left _ hp
      _ < 2 ^ 63 := by norm_num

theorem DeserializeInteger_mode11 (b0 : Byte) (tl : List Byte) (h : b0.val / 32 % 4 = 3)
    (hl : b0.val / 4 % 8 + 1 ≤ tl.length)
    (hg : b0.val / 4 % 8 = 7 → b0.val % 4 = 0 ∧ (tl.headD 0).val < 128) :
    DeserializeInteger (some (b0 :: tl)) =
      .ok (some (tl.drop (b0.val / 4 % 8 + 1)),
        signedValue (b0.val / 128) (beFold (b0.val % 4) (tl.take (b0.val / 4 % 8 + 1)))) := by
  have hb := b0.isLt
  obtain ⟨m1, m2, m3, m4, m5⟩ := byte_masks b0.val hb
  have hlt := beFold_mode11_lt b0 tl hl hg
  have hcl := combineLoop_eq tl (b0.val / 4 % 8 + 1) 0 (b0.val % 4) (by omega)
    (by rw [List.drop_zero]; omega)
  rw [List.drop_zero] at hcl
  have a1 : (1 : Int) ≤ (tl.length : Int) + 1 := by omega
  have a2 : ¬ (tl.length < b0.val / 4 % 8 + 1) := by omega
  have a3 : ((b0.val : Nat) : Int) / 4 % 8 + 1 ≤ (tl.length : Int) := by omega
  have a4 : (((b0.val : Nat) : Int) / 4 % 8 + 1).toNat = b0.val / 4 % 8 + 1 := by omega
  have a5 : (0 : Int) ≤ ((b0.val : Nat) : Int) / 4 % 8 + 1 := by omega
  simp only [DeserializeInteger, deserializeIntegerImplNoSign, Slice.len, Slice.index,
    Slice.sliceFrom, bind, Except.bind, pure, Except.pure, integer_sermode_mask,
    integer_sermode_11, integer_sermode_00, integer_sermode_01, integer_sermode_10]
  by_cases h8 : b0.val / 4 % 8 = 7
  · obtain ⟨hz, hh⟩ := hg h8
    cases tl with
    | nil => simp at hl
    | cons b1 tl =>
      simp only [List.headD_cons] at hh
      have n5 := (byte_masks b1.val b1.isLt).2.2.2.2
      have hz1 : b1.val &&& 128 = 0 := by omega
      simp only [List.length_cons, Nat.cast_add, Nat.cast_one] at a1 a2 a3
      simp [h8, hz] at hlt hcl
      have c1 : ¬ (tl.length + 1 < 8) := by omega
      have c2 : (8 : Int) ≤ (tl.length : Int) + 1 := by omega
      simp [m1, m2, m3, m4, h, a1, a2, a3, a4, a5, hcl, hz, hz1, h8, c1, c2]
      simpa [h8, hz] using signed_ite b0 _ _ hlt
  · simp [m1, m2, m3, m4, h, a1, a2, a3, a4, a5, hcl, h8]
    exact signed_ite b0 _ _ hlt

theorem signedValue_sign_magnitude (v : Int) : signedValue (signBit v) (magnitude v) = v := by
  unfold signedValue signBit magnitude
  split <;> simp <;> omega

theorem firstByte_val (s md low : Nat) (hs : s < 2) (hmd : md < 4) (hl : low < 32) :
    (firstByte s md low).val = s * 128 + md * 32 + low := by
  unfold firstByte; rw [byte_val]; omega

theorem DeserializeInteger_layout00 (s m : Nat) (hs : s < 2) (hm : m < 32) (rest : List Byte) :
    DeserializeInteger (some (layout00 s m ++ rest)) = .ok (some rest, signedValue s m) := by
  have hv := firstByte_val s 0 m hs (by decide) hm
  show DeserializeInteger (some (firstByte s 0 m :: rest)) = _
  rw [DeserializeInteger_mode00 _ _ (by omega)]
  have e1 : (firstByte s 0 m).val / 128 = s := by omega
  have e2 : (firstByte s 0 m).val % 32 = m := by omega
  rw [e1, e2]

theorem DeserializeInteger_layout01 (s m : Nat) (hs : s < 2) (hm : m < 8192) (rest : List Byte) :
    DeserializeInteger (some (layout01 s m ++ rest)) = .ok (some rest, signedValue s m) := by
  have hv := firstByte_val s 1 (m / 256) hs (by decide) (by omega)
  show DeserializeInteger (some (firstByte s 1 (m / 256) :: byte (m % 256) :: rest)) = _
  rw [DeserializeInteger_mode01 _ _ _ (by omega)]
  have e1 : (firstByte s 1 (m / 256)).val / 128 = s := by omega
  have e2 : (firstByte s 1 (m / 256)).val % 32 * 256 + (byte (m % 256)).val = m := by
    rw [byte_val]; omega
  rw [e1, e2]

theorem DeserializeInteger_layout10 (s m : Nat) (hs : s < 2) (hm : m < 2097152)
    (rest : List Byte) :
    DeserializeInteger (some (layout10 s m ++ rest)) = .ok (some rest, signedValue s m) := by
  have hv := firstByte_val s 2 (m / 65536) hs (by decide) (by omega)
  show DeserializeInteger (some (firstByte s 2 (m / 65536) :: byte (m / 256 % 256) ::
    byte (m % 256) :: rest)) = _
  rw [DeserializeInteger_mode10 _ _ _ _ (by omega)]
  have e1 : (firstByte s 2 (m / 65536)).val / 128 = s := by omega
  have e2 : ((firstByte s 2 (m / 65536)).val % 32 * 256 + (byte (m / 256 % 256)).val) * 256 +
      (byte (m % 256)).val = m := by
    rw [byte_val, byte_val]; omega
  rw [e1, e2]

theorem lowBytesBE_headD (k m : Nat) :
    ((lowBytesBE (k + 1) m).headD 0).val = m / 256 ^ k % 256 := by
  induction k generalizing m with
  | zero => simp [lowBytesBE, byte_val]
  | succ k ih =>
    have hne : lowBytesBE (k + 1) (m / 256) ≠ [] := by
      intro h
      have := lowBytesBE_length (k + 1) (m / 256)
      rw [h] at this; simp at this
    rw [lowBytesBE]
    obtain ⟨x, xs, hx⟩ := List.exists_cons_of_ne_nil hne
    have := ih (m / 256)
    rw [hx] at this ⊢
    simp only [List.cons_append, List.headD_cons] at this ⊢
    rw [this, Nat.div_div_eq_div_mul, Nat.pow_succ, Nat.mul_comm]

theorem DeserializeInteger_layout11 (s k m : Nat) (hs : s < 2) (hk1 : 1 ≤ k) (hk8 : k ≤ 8)
    (hm : m < 2 ^ 63) (hk : m < 4 * 256 ^ k) (rest : List Byte) :
    DeserializeInteger (some (layout11 s k m ++ rest)) = .ok (some rest, signedValue s m) := by
  have hu : m / 256 ^ k < 4 := by
    rw [Nat.div_lt_iff_lt_mul (Nat.pow_pos (by decide))]; exact hk
  have hlen := lowBytesBE_length k m
  have hfold := beFold_lowBytesBE k m (m / 256 ^ k)
  rw [Nat.div_add_mod'] at hfold
  have hhead : k = 8 → m / 256 ^ k = 0 ∧ ((lowBytesBE k m ++ rest).headD 0).val < 128 := by
    intro hk8'
    subst hk8'
    have h0 : m / 256 ^ 8 = 0 := by omega
    refine ⟨h0, ?_⟩
    have hh := lowBytesBE_headD 7 m
    have hne : lowBytesBE 8 m ≠ [] := by
      intro h
      rw [h] at hlen; simp at hlen
    obtain ⟨x, xs, hx⟩ := List.exists_cons_of_ne_nil hne
    rw [hx] at hh ⊢
    simp only [List.cons_append, List.headD_cons] at hh ⊢
    omega
  show DeserializeInteger (some (firstByte s 3 ((k - 1) * 4 + m / 256 ^ k) ::
    (lowBytesBE k m ++ rest))) = _
  generalize m / 256 ^ k = u at *
  have hv := firstByte_val s 3 ((k - 1) * 4 + u) hs (by decide) (by omega)
  have e0 : (firstByte s 3 ((k - 1) * 4 + u)).val / 4 % 8 + 1 = k := by omega
  have e1 : (firstByte s 3 ((k - 1) * 4 + u)).val / 128 = s := by omega
  have e2 : (firstByte s 3 ((k - 1) * 4 + u)).val % 4 = u := by omega
  rw [DeserializeInteger_mode11 _ _ (by omega) (by rw [e0]; simp [hlen])]
  · rw [e0, e1, e2, List.drop_left' hlen, List.take_left' hlen, hfold]
  · intro h7
    rw [e2]
    exact hhead (by omega)

/-! ## Encoder and decoder together -/

theorem two_pow_count (k : Nat) : 2 ^ (8 * k + 2) = 4 * 256 ^ k := by
  rw [pow_add, pow_mul]; norm_num; ring

theorem exists_mode11_count (m : Nat) (h0 : 2097152 ≤ m) (hm : m < 2 ^ 63) :
    ∃ k, m < 4 * 256 ^ k ∧ 4 * 256 ^ (k - 1) ≤ m := by
  by_cases h3 : m < 4 * 256 ^ 3
  · exact ⟨3, h3, by norm_num; omega⟩
  by_cases h4 : m < 4 * 256 ^ 4
  · exact ⟨4, h4, by simpa using h3⟩
  by_cases h5 : m < 4 * 256 ^ 5
  · exact ⟨5, h5, by simpa using h4⟩
  by_cases h6 : m < 4 * 256 ^ 6
  · exact ⟨6, h6, by simpa using h5⟩
  by_cases h7 : m < 4 * 256 ^ 7
  · exact ⟨7, h7, by simpa using h6⟩
  · exact ⟨8, by norm_num; omega, by simpa using h7⟩

/-- The encoder's output is one of the four layouts, the first that fits the magnitude. -/
theorem SerializeInteger_layout (buf : Slice) (v : Int) (hv : isInt64 v) :
    ∃ enc, SerializeInteger buf v = some (buf.getD [] ++ enc) ∧
      encodeInteger v = enc ∧
      ∀ rest, DeserializeInteger (some (enc ++ rest)) = .ok (some rest, v) := by
  have hs := signBit_lt v
  have hm := magnitude_lt v hv
  have hsv := signedValue_sign_magnitude v
  by_cases h00 : magnitude v < 32
  · refine ⟨layout00 (signBit v) (magnitude v), SerializeInteger_mode00 buf v hv h00, ?_, ?_⟩
    · simp [encodeInteger, SerializeInteger_mode00 (some []) v hv h00]
    · intro rest; rw [DeserializeInteger_layout00 _ _ hs h00, hsv]
  by_cases h01 : magnitude v < 8192
  · refine ⟨layout01 (signBit v) (magnitude v),
      SerializeInteger_mode01 buf v hv (by omega) h01, ?_, ?_⟩
    · simp [encodeInteger, SerializeInteger_mode01 (some []) v hv (by omega) h01]
    · intro rest; rw [DeserializeInteger_layout01 _ _ hs h01, hsv]
  by_cases h10 : magnitude v < 2097152
  · refine ⟨layout10 (signBit v) (magnitude v),
      SerializeInteger_mode10 buf v hv (by omega) h10, ?_, ?_⟩
    · simp [encodeInteger, SerializeInteger_mode10 (some []) v hv (by omega) h10]
    · intro rest; rw [DeserializeInteger_layout10 _ _ hs h10, hsv]
  obtain ⟨k, hk, hmin⟩ := exists_mode11_count (magnitude v) (by omega) hm
  obtain ⟨hk3, hk8⟩ := mode11_count_bounds _ k hm (by omega) hk hmin
  refine ⟨layout11 (signBit v) k (magnitude v),
    SerializeInteger_mode11 buf v hv (by omega) k hk hmin, ?_, ?_⟩
  · simp [encodeInteger, SerializeInteger_mode11 (some []) v hv (by omega) k hk hmin]
  · intro rest; rw [DeserializeInteger_layout11 _ _ _ hs (by omega) hk8 hm hk, hsv]

theorem SerializeInteger_append (buf : Slice) (v : Int) (hv : isInt64 v) :
    SerializeInteger buf v = some (buf.getD [] ++ encodeInteger v) := by
  obtain ⟨enc, h1, h2, _⟩ := SerializeInteger_layout buf v hv
  rw [h1, h2]

theorem DeserializeInteger_encodeInteger (v : Int) (hv : isInt64 v) (rest : List Byte) :
    DeserializeInteger (some (encodeInteger v ++ rest)) = .ok (some rest, v) := by
  obtain ⟨enc, _, h2, h3⟩ := SerializeInteger_layout (some []) v hv
  rw [h2]; exact h3 rest


/-! ## Failure of the decoder -/

theorem DeserializeInteger_fails_iff (l : List Byte) :
    DeserializeInteger (some l) = .ok (none, 0) ↔ decodeFails l := by
  cases l with
  | nil => simp [decodeFails, DeserializeInteger_empty]
  | cons b0 tl =>
    have hb := b0.isLt
    have hmode : modeField b0 = 0 ∨ modeField b0 = 1 ∨ modeField b0 = 2 ∨ modeField b0 = 3 := by
      unfold modeField; omega
    rcases hmode with h | h | h | h
    · rw [DeserializeInteger_mode00 b0 tl h]
      simp [decodeFails, requiredLength, h]
    · cases tl with
      | nil =>
        rw [DeserializeInteger_mode01_short b0 h]
        simp [decodeFails, requiredLength, h]
      | cons b1 tl =>
        rw [DeserializeInteger_mode01 b0 b1 tl h]
        simp [decodeFails, requiredLength, h]
    · by_cases hl : tl.length < 2
      · rw [DeserializeInteger_mode10_short b0 tl h hl]
        simp [decodeFails, requiredLength, h]
        omega
      · obtain ⟨b1, b2, tl', rfl⟩ : ∃ b1 b2 tl', tl = b1 :: b2 :: tl' := by
          match tl, hl with
          | b1 :: b2 :: tl', _ => exact ⟨b1, b2, tl', rfl⟩
          | [_], hl => simp at hl
          | [], hl => simp at hl
        rw [DeserializeInteger_mode10 b0 b1 b2 tl' h]
        simp [decodeFails, requiredLength, h]
    · by_cases hl : tl.length < countField b0 + 1
      · rw [DeserializeInteger_mode11_short b0 tl h hl]
        simp [decodeFails, requiredLength, h]
        left; omega
      · by_cases hg : countField b0 + 1 = 8 ∧ (b0.val % 4 ≠ 0 ∨ 128 ≤ (tl.headD 0).val)
        · obtain ⟨b1, tl', rfl⟩ : ∃ b1 tl', tl = b1 :: tl' := by
            match tl, hl with
            | b1 :: tl', _ => exact ⟨b1, tl', rfl⟩
            | [], hl => simp at hl
          have hl' : 7 ≤ tl'.length := by simp at hl; omega
          rw [DeserializeInteger_mode11_guard b0 b1 tl' h (by unfold countField at hg; omega) hl'
            (by simpa using hg.2)]
          simp only [decodeFails, true_iff]
          exact Or.inr ⟨h, hg⟩
        · rw [DeserializeInteger_mode11 b0 tl h (by unfold countField at hl; omega)
            (by
              intro h7
              unfold countField at hg
              have := hg
              simp only [h7, true_and, not_or, not_not, not_le] at this
              exact this)]
          simp [decodeFails, requiredLength, h]
          refine ⟨by omega, ?_⟩
          intro h8
          have := hg
          simp only [h8, true_and, not_or, not_not, not_le] at this
          simpa using this

/-- The decoder never faults: it either reports a format error or returns a non-nil rest. -/
theorem DeserializeInteger_total (b : Slice) :
    DeserializeInteger b = .ok (none, 0) ∨ ∃ rest v, DeserializeInteger b = .ok (some rest, v) := by
  cases b with
  | none => exact Or.inl rfl
  | some l =>
    cases l with
    | nil => exact Or.inl rfl
    | cons b0 tl =>
      have hmode : modeField b0 = 0 ∨ modeField b0 = 1 ∨ modeField b0 = 2 ∨ modeField b0 = 3 := by
        unfold modeField; omega
      rcases hmode with h | h | h | h
      · exact Or.inr ⟨_, _, DeserializeInteger_mode00 b0 tl h⟩
      · cases tl with
        | nil => exact Or.inl (DeserializeInteger_mode01_short b0 h)
        | cons b1 tl => exact Or.inr ⟨_, _, DeserializeInteger_mode01 b0 b1 tl h⟩
      · by_cases hl : tl.length < 2
        · exact Or.inl (DeserializeInteger_mode10_short b0 tl h hl)
        · match tl, hl with
          | b1 :: b2 :: tl', _ => exact Or.inr ⟨_, _, DeserializeInteger_mode10 b0 b1 b2 tl' h⟩
          | [_], hl => simp at hl
          | [], hl => simp at hl
      · by_cases hf : decodeFails (b0 :: tl)
        · exact Or.inl ((DeserializeInteger_fails_iff _).2 hf)
        · simp only [decodeFails, requiredLength, h, not_or, not_and, not_lt] at hf
          simp at hf
          refine Or.inr ⟨_, _,
            DeserializeInteger_mode11 b0 tl h (by unfold countField at hf; omega) ?_⟩
          intro h7
          have := hf.2 (by unfold countField; omega)
          exact ⟨this.1, by simpa using this.2⟩

theorem isInt64_signedValue (s m : Nat) (hm : m < 2 ^ 63) : isInt64 (signedValue s m) := by
  unfold isInt64 signedValue
  split <;> omega

theorem isInt64_int64 (n : Nat) : isInt64 (int64 n) := by
  unfold isInt64 int64
  split <;> omega

/-- A successful decode returns an int64 and a proper suffix of its input. -/
theorem DeserializeInteger_some_inv (b : Slice) (r : List Byte) (v : Int)
    (h : DeserializeInteger b = .ok (some r, v)) :
    isInt64 v ∧ ∃ pre, pre ≠ [] ∧ b = some (pre ++ r) := by
  cases b with
  | none => simp [DeserializeInteger_nil] at h
  | some l =>
    cases l with
    | nil => simp [DeserializeInteger_empty] at h
    | cons b0 tl =>
      have hb := b0.isLt
      have hmode : modeField b0 = 0 ∨ modeField b0 = 1 ∨ modeField b0 = 2 ∨ modeField b0 = 3 := by
        unfold modeField; omega
      rcases hmode with hm | hm | hm | hm
      · rw [DeserializeInteger_mode00 b0 tl hm] at h
        simp only [Except.ok.injEq, Prod.mk.injEq, Option.some.injEq] at h
        obtain ⟨rfl, rfl⟩ := h
        exact ⟨isInt64_signedValue _ _ (by omega), [b0], by simp, rfl⟩
      · cases tl with
        | nil => simp [DeserializeInteger_mode01_short b0 hm] at h
        | cons b1 tl =>
          have hb1 := b1.isLt
          rw [DeserializeInteger_mode01 b0 b1 tl hm] at h
          simp only [Except.ok.injEq, Prod.mk.injEq, Option.some.injEq] at h
          obtain ⟨rfl, rfl⟩ := h
          exact ⟨isInt64_signedValue _ _ (by omega), [b0, b1], by simp, rfl⟩
      · by_cases hl : tl.length < 2
        · simp [DeserializeInteger_mode10_short b0 tl hm hl] at h
        · match tl, hl with
          | b1 :: b2 :: tl', _ =>
            have hb1 := b1.isLt
            have hb2 := b2.isLt
            rw [DeserializeInteger_mode10 b0 b1 b2 tl' hm] at h
            simp only [Except.ok.injEq, Prod.mk.injEq, Option.some.injEq] at h
            obtain ⟨rfl, rfl⟩ := h
            exact ⟨isInt64_signedValue _ _ (by omega), [b0, b1, b2], by simp, rfl⟩
          | [_], hl => simp at hl
          | [], hl => simp at hl
      · by_cases hf : decodeFails (b0 :: tl)
        · simp [(DeserializeInteger_fails_iff _).2 hf] at h
        · simp only [decodeFails, requiredLength, hm, not_or, not_and, not_lt] at hf
          simp at hf
          have hl : b0.val / 4 % 8 + 1 ≤ tl.length := by unfold countField at hf; omega
          have hg : b0.val / 4 % 8 = 7 → b0.val % 4 = 0 ∧ (tl.headD 0).val < 128 := by
            intro h7
            have := hf.2 (by unfold countField; omega)
            exact ⟨this.1, by simpa using this.2⟩
          rw [DeserializeInteger_mode11 b0 tl hm hl hg] at h
          simp only [Except.ok.injEq, Prod.mk.injEq, Option.some.injEq] at h
          obtain ⟨rfl, rfl⟩ := h
          refine ⟨isInt64_signedValue _ _ (beFold_mode11_lt b0 tl hl hg),
            b0 :: tl.take (b0.val / 4 % 8 + 1), by simp, ?_⟩
          simp [List.take_append_drop]

theorem DeserializeInteger_none_value (b : Slice) (v : Int)
    (h : DeserializeInteger b = .ok (none, v)) : v = 0 := by
  rcases DeserializeInteger_total b with h0 | ⟨r, v', h1⟩
  · rw [h0] at h; simp at h; exact h.symm
  · rw [h1] at h; simp at h

/-! ## Blobs and strings -/

theorem DeserializeBlob_of_fail (b : Slice) (h : DeserializeInteger b = .ok (none, 0)) :
    DeserializeBlob b = .ok (none, none) := by
  simp [DeserializeBlob, h, bind, Except.bind, pure, Except.pure]

theorem DeserializeBlob_of_long (b : Slice) (r : List Byte) (n : Int)
    (h : DeserializeInteger b = .ok (some r, n)) (hr : r.length < 2 ^ 63)
    (hn : (r.length : Int) < n) : DeserializeBlob b = .ok (none, none) := by
  have hi : n > int64 (Slice.len (some r)) := by
    rw [show Slice.len (some r) = r.length from rfl, int64_of_lt _ hr]; exact hn
  simp [DeserializeBlob, h, bind, Except.bind, pure, Except.pure, hi]

theorem DeserializeBlob_of_fits (b : Slice) (r : List Byte) (n : Int)
    (h : DeserializeInteger b = .ok (some r, n)) (hr : r.length < 2 ^ 63)
    (h0 : 0 ≤ n) (hn : n ≤ (r.length : Int)) :
    DeserializeBlob b = .ok (some (r.drop n.toNat), some (r.take n.toNat)) := by
  have hi : n ≤ int64 r.length := by
    rw [int64_of_lt _ hr]; omega
  have hl : Slice.len (some r) = r.length := rfl
  simp [DeserializeBlob, h, bind, Except.bind, pure, Except.pure, hi, Slice.sliceTo,
    Slice.sliceFrom, hl, h0, hn]

theorem DeserializeBlob_of_negative (b : Slice) (r : List Byte) (n : Int)
    (h : DeserializeInteger b = .ok (some r, n)) (hr : r.length < 2 ^ 63) (h0 : n < 0) :
    DeserializeBlob b = .error .sliceBoundsOutOfRange := by
  have hi : n ≤ int64 r.length := by
    rw [int64_of_lt _ hr]; omega
  have hl : Slice.len (some r) = r.length := rfl
  have h0' : ¬ (0 ≤ n) := by omega
  simp [DeserializeBlob, h, bind, Except.bind, pure, Except.pure, hi, Slice.sliceTo,
    Slice.sliceFrom, hl, h0']

theorem SerializeBlob_some (buf : List Byte) (data : Slice) :
    SerializeBlob (some buf) data =
      some (buf ++ encodeInteger (int64 data.len) ++ data.getD []) := by
  unfold SerializeBlob
  rw [if_neg (by simp), SerializeInteger_append _ _ (isInt64_int64 _)]
  cases h : data.getD [] <;> simp [goAppend]

/-! ## The dispatcher -/

theorem decodeHeader_some (req : Slice) (rid sid fid : Int) (p : List Byte)
    (h : decodeHeader req = some (rid, sid, fid, p)) :
    ∃ r1 r2, DeserializeInteger req = .ok (some r1, rid) ∧
      DeserializeInteger (some r1) = .ok (some r2, sid) ∧
      DeserializeInteger (some r2) = .ok (some p, fid) := by
  unfold decodeHeader at h
  rcases DeserializeInteger_total req with h1 | ⟨r1, v1, h1⟩
  · simp [h1] at h
  · rw [h1] at h
    simp only at h
    rcases DeserializeInteger_total (some r1) with h2 | ⟨r2, v2, h2⟩
    · simp [h2] at h
    · rw [h2] at h
      simp only at h
      rcases DeserializeInteger_total (some r2) with h3 | ⟨r3, v3, h3⟩
      · simp [h3] at h
      · rw [h3] at h
        simp only [Option.some.injEq, Prod.mk.injEq] at h
        obtain ⟨rfl, rfl, rfl, rfl⟩ := h
        exact ⟨r1, r2, h1, h2, h3⟩

theorem decodeHeader_isInt64 (req : Slice) (rid sid fid : Int) (p : List Byte)
    (h : decodeHeader req = some (rid, sid, fid, p)) : isInt64 rid := by
  obtain ⟨r1, r2, h1, _, _⟩ := decodeHeader_some req rid sid fid p h
  exact (DeserializeInteger_some_inv req r1 rid h1).1

theorem ProcessRequest_eq (srv : Server) (w : World) (ctx : Nat) (req out : Slice) :
    srv.ProcessRequest w ctx req out =
      match decodeHeader req with
      | none => .ok (none, w)
      | some (rid, sid, fid, p) =>
        finishRequest out rid (srv.handleService w ctx rid sid fid (some p) (successHeader out rid)) := by
  unfold decodeHeader
  rcases DeserializeInteger_total req with h1 | ⟨r1, v1, h1⟩
  · simp [Server.ProcessRequest, h1, DeserializeInteger_nil, bind, Except.bind, pure, Except.pure]
  · rcases DeserializeInteger_total (some r1) with h2 | ⟨r2, v2, h2⟩
    · simp [Server.ProcessRequest, h1, h2, DeserializeInteger_nil, bind, Except.bind, pure,
        Except.pure]
    · rcases DeserializeInteger_total (some r2) with h3 | ⟨r3, v3, h3⟩
      · simp [Server.ProcessRequest, h1, h2, h3, bind, Except.bind, pure, Except.pure]
      · simp only [Server.ProcessRequest, h1, h2, h3, bind, Except.bind, pure, Except.pure,
          finishRequest, successHeader]
        simp only [reduceCtorEq, if_false]
        cases srv.handleService w ctx v1 v2 v3 (some r3)
          (if v1 > 0 then SerializeInteger (SerializeInteger out v1) 1 else none) with
        | error e => rfl
        | ok r =>
          obtain ⟨rb, w'⟩ := r
          simp only

theorem callFunctionOnServer_unknown (srv : Server) (w : World) (fid : Int) (req resp : Slice)
    (h0 : fid ≠ 0) (h1 : fid ≠ 1) (h2 : fid ≠ 2) :
    srv.callFunctionOnServer w fid req resp = .ok (none, w) := by
  simp [Server.callFunctionOnServer, h0, h1, h2, bind, Except.bind, pure, Except.pure]

theorem callFunctionOnServer_total (srv : Server) (w : World) (fid : Int) (req resp : Slice) :
    ∃ r w', srv.callFunctionOnServer w fid req resp = .ok (r, w') := by
  unfold Server.callFunctionOnServer
  by_cases h0 : fid = 0
  · simp [h0, pure, Except.pure]
  by_cases h1 : fid = 1
  · rcases DeserializeInteger_total req with h | ⟨r, v, h⟩ <;>
      simp [h0, h1, Server.handleServerRequestCancel, h, bind, Except.bind, pure, Except.pure]
  by_cases h2 : fid = 2
  · rcases DeserializeInteger_total req with h | ⟨r, v, h⟩ <;>
      simp [h0, h1, h2, Server.handleServerRequestEcho, h, bind, Except.bind, pure, Except.pure]
  · exact ⟨_, _, callFunctionOnServer_unknown srv w fid req resp h0 h1 h2⟩

theorem handleService_total (srv : Server) (w : World) (ctx : Nat) (rid sid fid : Int)
    (req resp : Slice) :
    ∃ r w', srv.handleService w ctx rid sid fid req resp = .ok (r, w') := by
  unfold Server.handleService
  by_cases hs : sid = 0
  · rw [if_pos hs]; exact callFunctionOnServer_total srv w fid req resp
  · rw [if_neg hs]
    cases srv.services.find? (fun service => service.GetServiceId = sid) with
    | none => exact ⟨_, _, rfl⟩
    | some svc => exact ⟨_, _, rfl⟩

theorem callFunctionOnService_absent (srv : Server) (w : World) (ctx : Nat) (svc : ServerService)
    (rid fid : Int) (req resp : Slice)
    (h : (svc.CallFunction (w.canceller.addRequest ctx rid).1 fid req resp
      (w.canceller.addRequest ctx rid).2).1 = none) :
    (srv.callFunctionOnService w ctx svc rid fid req resp).1 = none := by
  unfold Server.callFunctionOnService
  simp only
  split <;> simp [h]

theorem failure_bytes (out : Slice) (rid : Int) (hr : isInt64 rid) :
    SerializeInteger (SerializeInteger out rid) 0 = some (failureResponse out rid) := by
  rw [SerializeInteger_append out rid hr, SerializeInteger_append _ 0 (by decide)]
  simp [failureResponse]

theorem finishRequest_absent (out : Slice) (rid : Int) (hr : isInt64 rid) (hpos : rid > 0)
    (w : World) :
    finishRequest out rid (.ok (none, w)) = .ok (some (failureResponse out rid), w) := by
  simp [finishRequest, show ¬ rid ≤ 0 by omega, failure_bytes out rid hr]

/-! ## Construction of a server -/

theorem range_find_none (services : List ServerService) (id : Int) (pre rest : List ServerService)
    (hs : services = pre ++ rest) :
    (List.range pre.length).find?
        (fun i => (services[i]?.map (·.GetServiceId)) = some id) = none ↔
      id ∉ pre.map (·.GetServiceId) := by
  subst hs
  rw [List.find?_eq_none]
  constructor
  · intro h hm
    rw [List.mem_map] at hm
    obtain ⟨s, hsm, hid⟩ := hm
    obtain ⟨i, hi, hget⟩ := List.getElem_of_mem hsm
    have := h i (List.mem_range.2 hi)
    apply this
    simp [List.getElem?_append_left hi, List.getElem?_eq_getElem hi, hget, hid]
  · intro h i hi hp
    rw [List.mem_range] at hi
    simp only [List.getElem?_append_left hi, List.getElem?_eq_getElem hi, Option.map_some',
      decide_eq_true_eq, Option.some.injEq] at hp
    apply h
    rw [List.mem_map]
    exact ⟨pre[i], List.getElem_mem _, hp⟩

theorem validateServices_none (rest : List ServerService) :
    ∀ pre : List ServerService,
      validateServices (pre ++ rest) pre.length rest = none ↔
        (∀ s ∈ rest, 0 < s.GetServiceId) ∧
        (∀ s ∈ rest, s.GetServiceId ∉ pre.map (·.GetServiceId)) ∧
        (rest.map (·.GetServiceId)).Nodup := by
  induction rest with
  | nil => intro pre; simp [validateServices]
  | cons s rest ih =>
    intro pre
    have hrec := ih (pre ++ [s])
    simp only [List.append_assoc, List.singleton_append, List.length_append,
      List.length_singleton] at hrec
    unfold validateServices
    by_cases hpos : s.GetServiceId ≤ 0
    · simp only [hpos, if_true]
      constructor
      · intro h; cases h
      · intro h
        have := h.1 s (List.mem_cons_self _ _)
        omega
    · simp only [hpos, if_false]
      have hfind := range_find_none (pre ++ s :: rest) s.GetServiceId pre (s :: rest) rfl
      by_cases hin : s.GetServiceId ∈ pre.map (·.GetServiceId)
      · have hne : (List.range pre.length).find?
            (fun i => ((pre ++ s :: rest)[i]?.map (·.GetServiceId)) = some s.GetServiceId) ≠
            none := by
          rw [Ne, hfind]; exact fun h => h hin
        obtain ⟨i, hi⟩ := Option.ne_none_iff_exists'.1 hne
        simp only [hi]
        constructor
        · intro h; cases h
        · intro h
          exact absurd hin (h.2.1 s (List.mem_cons_self _ _))
      · rw [hfind.2 hin]
        simp only
        rw [hrec]
        have key : ∀ a : ServerService,
            a.GetServiceId ∉ (pre ++ [s]).map (·.GetServiceId) ↔
              a.GetServiceId ∉ pre.map (·.GetServiceId) ∧ a.GetServiceId ≠ s.GetServiceId := by
          intro a
          simp [not_or]
        constructor
        · rintro ⟨h1, h2, h3⟩
          refine ⟨?_, ?_, ?_⟩
          · intro x hx
            rcases List.mem_cons.1 hx with hxs | hx
            · rw [hxs]; omega
            · exact h1 x hx
          · intro x hx
            rcases List.mem_cons.1 hx with hxs | hx
            · rw [hxs]; exact hin
            · exact ((key x).1 (h2 x hx)).1
          · rw [List.map_cons, List.nodup_cons]
            refine ⟨?_, h3⟩
            intro hm
            obtain ⟨a, ha, hid⟩ := List.mem_map.1 hm
            exact ((key a).1 (h2 a ha)).2 hid
        · rintro ⟨h1, h2, h3⟩
          rw [List.map_cons, List.nodup_cons] at h3
          refine ⟨fun x hx => h1 x (List.mem_cons_of_mem _ hx),
            fun x hx => (key x).2 ⟨h2 x (List.mem_cons_of_mem _ hx), ?_⟩, h3.2⟩
          intro hid
          apply h3.1
          exact List.mem_map.2 ⟨x, hx, hid⟩

theorem NewServer_ok_iff (services : List ServerService) (srv : Server) (c : canceller) :
    NewServer services = .ok (srv, c) ↔
      (∀ s ∈ services, 0 < s.GetServiceId) ∧ (services.map (·.GetServiceId)).Nodup ∧
      srv.services = services ∧ c = canceller.new := by
  have h := validateServices_none services []
  simp only [List.nil_append, List.length_nil, List.map_nil, List.not_mem_nil, not_false_eq_true,
    implies_true, true_and] at h
  unfold NewServer
  cases hv : validateServices services 0 services with
  | some e =>
    simp only [reduceCtorEq, false_iff]
    intro hc
    have := h.2 ⟨hc.1, hc.2.1⟩
    rw [hv] at this
    cases this
  | none =>
    have hh := h.1 hv
    simp only [Except.ok.injEq, Prod.mk.injEq]
    constructor
    · rintro ⟨rfl, rfl⟩
      exact ⟨hh.1, hh.2, rfl, rfl⟩
    · rintro ⟨_, _, h3, h4⟩
      cases srv
      simp only at h3
      subst h3 h4
      exact ⟨rfl, rfl⟩

theorem NewServer_error_iff (services : List ServerService) :
    (∃ e, NewServer services = .error e) ↔
      (∃ s ∈ services, s.GetServiceId ≤ 0) ∨ ¬ (services.map (·.GetServiceId)).Nodup := by
  have hok := NewServer_ok_iff services ⟨services⟩ canceller.new
  constructor
  · rintro ⟨e, he⟩
    by_contra hc
    rw [not_or, not_not] at hc
    have : NewServer services = .ok (⟨services⟩, canceller.new) := by
      rw [hok]
      refine ⟨fun s hs => ?_, hc.2, rfl, rfl⟩
      by_contra hn
      exact hc.1 ⟨s, hs, by omega⟩
    rw [this] at he
    cases he
  · intro h
    cases hn : NewServer services with
    | error e => exact ⟨e, rfl⟩
    | ok r =>
      exfalso
      obtain ⟨srv, c⟩ := r
      have := (NewServer_ok_iff services srv c).1 hn
      rcases h with ⟨s, hs, hle⟩ | hnd
      · have := this.1 s hs; omega
      · exact hnd this.2.1

/-- A service registered with a server built by `NewServer` has a positive id and is the one
the dispatcher finds for that id. -/
theorem find_registered (services : List ServerService) (srv : Server) (c : canceller)
    (hsrv : NewServer services = .ok (srv, c)) (svc : ServerService) (hm : svc ∈ services) :
    svc.GetServiceId ≠ 0 ∧
    srv.services.find? (fun service => service.GetServiceId = svc.GetServiceId) = some svc := by
  obtain ⟨hpos, hnd, hs, _⟩ := (NewServer_ok_iff services srv c).1 hsrv
  refine ⟨by have := hpos svc hm; omega, ?_⟩
  rw [hs]
  clear hsrv hs hpos
  induction services with
  | nil => simp at hm
  | cons s rest ih =>
    simp only [List.map_cons, List.nodup_cons] at hnd
    by_cases he : s.GetServiceId = svc.GetServiceId
    · have hsv : svc = s := by
        rcases List.mem_cons.1 hm with h | h
        · exact h
        · exfalso
          apply hnd.1
          rw [List.mem_map]
          exact ⟨svc, h, he.symm⟩
      subst hsv
      simp [List.find?]
    · have hm' : svc ∈ rest := by
        rcases List.mem_cons.1 hm with h | h
        · exact absurd (by rw [h]) he
        · exact h
      simp only [List.find?, he, decide_False]
      exact ih hm' hnd.2

/-! ## Service calls -/

theorem callFunctionOnService_eq (srv : Server) (w : World) (ctx : Nat) (svc : ServerService)
    (rid fid : Int) (p : List Byte) (buf : Slice) :
    srv.callFunctionOnService w ctx svc rid fid (some p) buf =
      (if ((handlerRun w ctx svc rid fid p buf).2.requestFinished rid).1 then none
        else (handlerRun w ctx svc rid fid p buf).1,
       { canceller := ((handlerRun w ctx svc rid fid p buf).2.requestFinished rid).2
         calls := callRecord w ctx svc rid fid p buf :: w.calls }) := by
  unfold Server.callFunctionOnService handlerRun callRecord
  simp only
  split <;> simp_all

theorem ProcessRequest_service (srv : Server) (w : World) (ctx : Nat) (req out : Slice)
    (rid sid fid : Int) (p : List Byte) (svc : ServerService)
    (hd : decodeHeader req = some (rid, sid, fid, p)) (hs : sid ≠ 0)
    (hf : srv.services.find? (fun service => service.GetServiceId = sid) = some svc) :
    srv.ProcessRequest w ctx req out =
      finishRequest out rid
        (.ok (srv.callFunctionOnService w ctx svc rid fid (some p) (successHeader out rid))) := by
  rw [ProcessRequest_eq, hd]
  simp only [Server.handleService, if_neg hs, hf]

theorem successHeader_pos (out : Slice) (rid : Int) (hr : isInt64 rid) (hpos : rid > 0) :
    successHeader out rid = some (out.getD [] ++ encodeInteger rid ++ encodeInteger 1) := by
  simp only [successHeader, hpos, if_true]
  rw [SerializeInteger_append out rid hr, SerializeInteger_append _ 1 (by decide)]
  simp

theorem successHeader_nonpos (out : Slice) (rid : Int) (hpos : rid ≤ 0) :
    successHeader out rid = none := by
  simp [successHeader, show ¬ rid > 0 by omega]

/-! ## The registry -/

theorem lookup_filter_self (l : List (Int × Nat)) (k : Int) :
    (l.filter (fun e => e.1 ≠ k)).lookup k = none := by
  induction l with
  | nil => rfl
  | cons e l ih =>
    by_cases h : e.1 = k
    · rw [List.filter_cons_of_neg (by simpa using h)]; exact ih
    · rw [List.filter_cons_of_pos (by simpa using h)]
      obtain ⟨a, b⟩ := e
      have hk : (k == a) = false := by simpa using fun hh : k = a => h hh.symm
      simp only [List.lookup, hk]
      exact ih

theorem lookup_filter_ne (l : List (Int × Nat)) (k k' : Int) (hne : k' ≠ k) :
    (l.filter (fun e => e.1 ≠ k)).lookup k' = l.lookup k' := by
  induction l with
  | nil => rfl
  | cons e l ih =>
    obtain ⟨a, b⟩ := e
    by_cases h : a = k
    · rw [List.filter_cons_of_neg (by simpa using h)]
      have hk : (k' == a) = false := by simpa [h] using hne
      simp only [List.lookup, hk]
      exact ih
    · rw [List.filter_cons_of_pos (by simpa using h)]
      cases hk : (k' == a) with
      | true => simp only [List.lookup, hk]
      | false =>
        simp only [List.lookup, hk]
        exact ih

theorem find_delete_self (c : canceller) (k : Int) : (c.delete k).find k = none :=
  lookup_filter_self c.cancels k

theorem find_delete_ne (c : canceller) (k k' : Int) (hne : k' ≠ k) :
    (c.delete k).find k' = c.find k' :=
  lookup_filter_ne c.cancels k k' hne

theorem find_addRequest_self (c : canceller) (ctx : Nat) (k : Int) :
    (c.addRequest ctx k).2.find k = some c.nextCtx := by
  simp [canceller.addRequest, canceller.find, List.lookup]

theorem cancelRequest_of_some (c : canceller) (t : Int) (cancel : Nat)
    (h : c.find t = some cancel) :
    c.cancelRequest t =
      (true, { cancels := (c.delete t).cancels, fired := cancel :: c.fired,
               nextCtx := c.nextCtx }) := by
  unfold canceller.cancelRequest
  rw [h]
  rfl

theorem cancelRequest_of_none (c : canceller) (t : Int) (h : c.find t = none) :
    c.cancelRequest t = (false, c) := by
  unfold canceller.cancelRequest
  rw [h]

theorem requestFinished_of_some (c : canceller) (t : Int) (cancel : Nat)
    (h : c.find t = some cancel) : c.requestFinished t = (false, c.delete t) := by
  unfold canceller.requestFinished
  rw [h]

theorem requestFinished_of_none (c : canceller) (t : Int) (h : c.find t = none) :
    c.requestFinished t = (true, c) := by
  unfold canceller.requestFinished
  rw [h]

theorem cancelRequest_spec (c : canceller) (t : Int) :
    (c.cancelRequest t).2.find t = none ∧
    (∀ k, k ≠ t → (c.cancelRequest t).2.find k = c.find k) ∧
    (∀ cancel, c.find t = some cancel →
      (c.cancelRequest t).1 = true ∧ (c.cancelRequest t).2.fired = cancel :: c.fired) ∧
    (c.find t = none → c.cancelRequest t = (false, c)) ∧
    (c.cancelRequest t).2.nextCtx = c.nextCtx := by
  cases h : c.find t with
  | none =>
    rw [cancelRequest_of_none c t h]
    exact ⟨h, fun _ _ => rfl, fun cancel hc => (by cases hc), fun _ => rfl, rfl⟩
  | some cancel =>
    rw [cancelRequest_of_some c t cancel h]
    refine ⟨find_delete_self c t, fun k hk => find_delete_ne c t k hk, ?_,
      fun hc => (by cases hc), rfl⟩
    intro cancel' hc
    cases hc
    exact ⟨rfl, rfl⟩

/-! ## The built-in functions -/

theorem SerializeString_some (buf : List Byte) (s : GoString) :
    SerializeString (some buf) s = some (buf ++ encodeString s) := by
  unfold encodeString SerializeString
  rw [SerializeBlob_some, SerializeBlob_some]
  simp

theorem foldl_services (services : List ServerService)
    (hids : ∀ s ∈ services, isInt64 s.GetServiceId) :
    ∀ buf : List Byte,
      services.foldl
        (fun respBytes service =>
          SerializeString (SerializeInteger respBytes service.GetServiceId) service.GetRevision)
        (some buf) = some (buf ++ serviceEntries services) := by
  induction services with
  | nil => intro buf; simp [serviceEntries]
  | cons s rest ih =>
    intro buf
    have hs := hids s (List.mem_cons_self _ _)
    simp only [List.foldl_cons]
    rw [SerializeInteger_append _ _ hs, Option.getD_some, SerializeString_some,
      ih (fun x hx => hids x (List.mem_cons_of_mem _ hx))]
    simp [serviceEntries]

theorem handleServerRequestGetServices_some (srv : Server) (buf : List Byte)
    (hids : ∀ s ∈ srv.services, isInt64 s.GetServiceId) :
    srv.handleServerRequestGetServices (some buf) =
      some (buf ++ encodeInteger (int64 srv.services.length) ++ serviceEntries srv.services) := by
  unfold Server.handleServerRequestGetServices
  simp only
  rw [SerializeInteger_append _ _ (isInt64_int64 _), Option.getD_some,
    foldl_services srv.services hids]

theorem ProcessRequest_builtin (srv : Server) (w : World) (ctx : Nat) (req out : Slice)
    (rid fid : Int) (p : List Byte) (hd : decodeHeader req = some (rid, 0, fid, p)) :
    srv.ProcessRequest w ctx req out =
      finishRequest out rid
        (srv.callFunctionOnServer w fid (some p) (successHeader out rid)) := by
  rw [ProcessRequest_eq, hd]
  simp only [Server.handleService, if_true]

theorem finishRequest_some (out : Slice) (rid : Int) (hpos : rid > 0) (r : List Byte)
    (w : World) : finishRequest out rid (.ok (some r, w)) = .ok (some r, w) := by
  simp [finishRequest, show ¬ rid ≤ 0 by omega]

theorem cancel_builtin_step (srv : Server) (w : World) (ctx : Nat) (req out : Slice)
    (rid : Int) (p : List Byte) (hd : decodeHeader req = some (rid, 0, 1, p)) (c : canceller)
    (hc : srv.handleServerRequestCancel w.canceller (some p) = .ok c) :
    srv.ProcessRequest w ctx req out =
      .ok (if rid > 0 then some (out.getD [] ++ encodeInteger rid ++ encodeInteger 1) else none,
        { w with canceller := c }) := by
  have hr := decodeHeader_isInt64 req rid 0 1 p hd
  rw [ProcessRequest_builtin srv w ctx req out rid 1 p hd]
  simp only [Server.callFunctionOnServer, hc, bind, Except.bind, pure, Except.pure]
  simp only [show ¬ ((1 : Int) = 0) by decide, if_false, if_true]
  by_cases hpos : rid > 0
  · rw [successHeader_pos out rid hr hpos, finishRequest_some out rid hpos, if_pos hpos]
  · rw [successHeader_nonpos out rid (by omega), if_neg hpos]
    simp [finishRequest, show rid ≤ 0 by omega]

/-! ## The unsigned decoder -/

theorem impl_mode00 (b0 : Byte) (tl : List Byte) (h : b0.val / 32 % 4 = 0) :
    deserializeIntegerImplNoSign (some (b0 :: tl)) = .ok (some tl, b0.val % 32) := by
  have hb := b0.isLt
  obtain ⟨m1, m2, m3, m4, m5⟩ := byte_masks b0.val hb
  simp [deserializeIntegerImplNoSign, Slice.len, Slice.index, Slice.sliceFrom,
    bind, Except.bind, pure, Except.pure, integer_sermode_mask, integer_sermode_11,
    integer_sermode_00, m1, m2, h]

theorem impl_mode01 (b0 b1 : Byte) (tl : List Byte) (h : b0.val / 32 % 4 = 1) :
    deserializeIntegerImplNoSign (some (b0 :: b1 :: tl)) =
      .ok (some tl, b0.val % 32 * 256 + b1.val) := by
  have hb := b0.isLt
  have hb1 := b1.isLt
  obtain ⟨m1, m2, m3, m4, m5⟩ := byte_masks b0.val hb
  have w1 : wrapUint64 (b0.val % 32 * 256) = b0.val % 32 * 256 := by unfold wrapUint64; omega
  have w2 : wrapUint64 (b0.val % 32 * 256 + b1.val) = b0.val % 32 * 256 + b1.val := by
    unfold wrapUint64; omega
  have a1 : ¬ (tl.length + 1 + 1 < 2) := by omega
  have a2 : (2 : Int) ≤ (tl.length : Int) + 1 + 1 := by omega
  simp [a1, a2, deserializeIntegerImplNoSign, Slice.len, Slice.index, Slice.sliceFrom,
    bind, Except.bind, pure, Except.pure, integer_sermode_mask, integer_sermode_11,
    integer_sermode_00, integer_sermode_01, m1, m2, h, w1, w2]

theorem impl_mode10 (b0 b1 b2 : Byte) (tl : List Byte) (h : b0.val / 32 % 4 = 2) :
    deserializeIntegerImplNoSign (some (b0 :: b1 :: b2 :: tl)) =
      .ok (some tl, (b0.val % 32 * 256 + b1.val) * 256 + b2.val) := by
  have hb := b0.isLt
  have hb1 := b1.isLt
  have hb2 := b2.isLt
  obtain ⟨m1, m2, m3, m4, m5⟩ := byte_masks b0.val hb
  have w1 : wrapUint64 (b0.val % 32 * 256) = b0.val % 32 * 256 := by unfold wrapUint64; omega
  have w2 : wrapUint64 (b0.val % 32 * 256 + b1.val) = b0.val % 32 * 256 + b1.val := by
    unfold wrapUint64; omega
  have w3 : wrapUint64 ((b0.val % 32 * 256 + b1.val) * 256) = (b0.val % 32 * 256 + b1.val) * 256 := by
    unfold wrapUint64; omega
  have w4 : wrapUint64 ((b0.val % 32 * 256 + b1.val) * 256 + b2.val) =
      (b0.val % 32 * 256 + b1.val) * 256 + b2.val := by
    unfold wrapUint64; omega
  have a1 : ¬ (tl.length + 1 + 1 + 1 < 3) := by omega
  have a2 : (3 : Int) ≤ (tl.length : Int) + 1 + 1 + 1 := by omega
  simp [deserializeIntegerImplNoSign, Slice.len, Slice.index, Slice.sliceFrom,
    bind, Except.bind, pure, Except.pure, integer_sermode_mask, integer_sermode_11,
    integer_sermode_00, integer_sermode_01, integer_sermode_10, m1, m2, h, w1, w2, w3, w4, a1, a2]

theorem impl_mode11 (b0 : Byte) (tl : List Byte) (h : b0.val / 32 % 4 = 3)
    (hl : b0.val / 4 % 8 + 1 ≤ tl.length)
    (hg : b0.val / 4 % 8 = 7 → b0.val % 4 = 0 ∧ (tl.headD 0).val < 128) :
    deserializeIntegerImplNoSign (some (b0 :: tl)) =
      .ok (some (tl.drop (b0.val / 4 % 8 + 1)),
        beFold (b0.val % 4) (tl.take (b0.val / 4 % 8 + 1))) := by
  have hb := b0.isLt
  obtain ⟨m1, m2, m3, m4, m5⟩ := byte_masks b0.val hb
  have hlt := beFold_mode11_lt b0 tl hl hg
  have hcl := combineLoop_eq tl (b0.val / 4 % 8 + 1) 0 (b0.val % 4) (by omega)
    (by rw [List.drop_zero]; omega)
  rw [List.drop_zero] at hcl
  have a1 : (1 : Int) ≤ (tl.length : Int) + 1 := by omega
  have a2 : ¬ (tl.length < b0.val / 4 % 8 + 1) := by omega
  have a3 : ((b0.val : Nat) : Int) / 4 % 8 + 1 ≤ (tl.length : Int) := by omega
  have a4 : (((b0.val : Nat) : Int) / 4 % 8 + 1).toNat = b0.val / 4 % 8 + 1 := by omega
  have a5 : (0 : Int) ≤ ((b0.val : Nat) : Int) / 4 % 8 + 1 := by omega
  simp only [deserializeIntegerImplNoSign, Slice.len, Slice.index,
    Slice.sliceFrom, bind, Except.bind, pure, Except.pure, integer_sermode_mask,
    integer_sermode_11, integer_sermode_00, integer_sermode_01, integer_sermode_10]
  by_cases h8 : b0.val / 4 % 8 = 7
  · obtain ⟨hz, hh⟩ := hg h8
    cases tl with
    | nil => simp at hl
    | cons b1 tl =>
      simp only [List.headD_cons] at hh
      have n5 := (byte_masks b1.val b1.isLt).2.2.2.2
      have hz1 : b1.val &&& 128 = 0 := by omega
      simp only [List.length_cons, Nat.cast_add, Nat.cast_one] at a1 a2 a3
      simp [h8, hz] at hlt hcl
      have c1 : ¬ (tl.length + 1 < 8) := by omega
      have c2 : (8 : Int) ≤ (tl.length : Int) + 1 := by omega
      simp [m1, m2, m3, m4, h, a1, a2, a3, a4, a5, hcl, hz, hz1, h8, c1, c2]
  · simp [m1, m2, m3, m4, h, a1, a2, a3, a4, a5, hcl, h8]

/-- On every input the signed decoder accepts, the unsigned decoder returns the magnitude
accumulated without wrap-around, below `2^63`, and the value is that magnitude with the sign
of the first byte applied. -/
theorem DeserializeInteger_some_magnitude (l r : List Byte) (v : Int)
    (h : DeserializeInteger (some l) = .ok (some r, v)) :
    deserializeIntegerImplNoSign (some l) = .ok (some r, decodedMagnitude l) ∧
    decodedMagnitude l < 2 ^ 63 ∧
    v = signedValue ((l.headD 0).val / 128) (decodedMagnitude l) := by
  cases l with
  | nil => simp [DeserializeInteger_empty] at h
  | cons b0 tl =>
    have hb := b0.isLt
    have hmode : modeField b0 = 0 ∨ modeField b0 = 1 ∨ modeField b0 = 2 ∨ modeField b0 = 3 := by
      unfold modeField; omega
    simp only [List.headD_cons]
    rcases hmode with hm | hm | hm | hm
    · rw [DeserializeInteger_mode00 b0 tl hm] at h
      simp only [Except.ok.injEq, Prod.mk.injEq, Option.some.injEq] at h
      obtain ⟨rfl, rfl⟩ := h
      refine ⟨?_, ?_, ?_⟩ <;> simp only [decodedMagnitude, hm, if_true]
      · exact impl_mode00 b0 tl hm
      · omega
    · cases tl with
      | nil => simp [DeserializeInteger_mode01_short b0 hm] at h
      | cons b1 tl =>
        have hb1 := b1.isLt
        rw [DeserializeInteger_mode01 b0 b1 tl hm] at h
        simp only [Except.ok.injEq, Prod.mk.injEq, Option.some.injEq] at h
        obtain ⟨rfl, rfl⟩ := h
        have hd : decodedMagnitude (b0 :: b1 :: tl) = b0.val % 32 * 256 + b1.val := by
          simp [decodedMagnitude, hm, beFold]
        rw [hd]
        exact ⟨impl_mode01 b0 b1 tl hm, by omega, rfl⟩
    · by_cases hl : tl.length < 2
      · simp [DeserializeInteger_mode10_short b0 tl hm hl] at h
      · match tl, hl with
        | b1 :: b2 :: tl', _ =>
          have hb1 := b1.isLt
          have hb2 := b2.isLt
          rw [DeserializeInteger_mode10 b0 b1 b2 tl' hm] at h
          simp only [Except.ok.injEq, Prod.mk.injEq, Option.some.injEq] at h
          obtain ⟨rfl, rfl⟩ := h
          have hd : decodedMagnitude (b0 :: b1 :: b2 :: tl') =
              (b0.val % 32 * 256 + b1.val) * 256 + b2.val := by
            simp [decodedMagnitude, hm, beFold]
          rw [hd]
          exact ⟨impl_mode10 b0 b1 b2 tl' hm, by omega, rfl⟩
        | [_], hl => simp at hl
        | [], hl => simp at hl
    · by_cases hf : decodeFails (b0 :: tl)
      · simp [(DeserializeInteger_fails_iff _).2 hf] at h
      · simp only [decodeFails, requiredLength, hm, not_or, not_and, not_lt] at hf
        simp at hf
        have hl : b0.val / 4 % 8 + 1 ≤ tl.length := by unfold countField at hf; omega
        have hg : b0.val / 4 % 8 = 7 → b0.val % 4 = 0 ∧ (tl.headD 0).val < 128 := by
          intro h7
          have := hf.2 (by unfold countField; omega)
          exact ⟨this.1, by simpa using this.2⟩
        rw [DeserializeInteger_mode11 b0 tl hm hl hg] at h
        simp only [Except.ok.injEq, Prod.mk.injEq, Option.some.injEq] at h
        obtain ⟨rfl, rfl⟩ := h
        have hd : decodedMagnitude (b0 :: tl) =
            beFold (b0.val % 4) (tl.take (b0.val / 4 % 8 + 1)) := by
          simp [decodedMagnitude, hm, countField]
        rw [hd]
        exact ⟨impl_mode11 b0 tl hm hl hg, beFold_mode11_lt b0 tl hl hg, rfl⟩

/-! ## Length of the encoding -/

theorem magnitude_signedValue (s m : Nat) : magnitude (signedValue s m) = m := by
  unfold magnitude signedValue
  split <;> split <;> omega

theorem layout11_length (s k m : Nat) : (layout11 s k m).length = k + 1 := by
  simp [layout11, lowBytesBE_length]

theorem encodeInteger_length_small (v : Int) (hv : isInt64 v) :
    (magnitude v < 32 → (encodeInteger v).length = 1) ∧
    (magnitude v < 8192 → (encodeInteger v).length ≤ 2) ∧
    (magnitude v < 2097152 → (encodeInteger v).length ≤ 3) := by
  have e00 : magnitude v < 32 → (encodeInteger v).length = 1 := by
    intro h
    simp [encodeInteger, SerializeInteger_mode00 (some []) v hv h, layout00]
  have e01 : 32 ≤ magnitude v → magnitude v < 8192 → (encodeInteger v).length = 2 := by
    intro h0 h
    simp [encodeInteger, SerializeInteger_mode01 (some []) v hv h0 h, layout01]
  have e10 : 8192 ≤ magnitude v → magnitude v < 2097152 → (encodeInteger v).length = 3 := by
    intro h0 h
    simp [encodeInteger, SerializeInteger_mode10 (some []) v hv h0 h, layout10]
  refine ⟨e00, ?_, ?_⟩
  · intro h
    by_cases h0 : magnitude v < 32
    · rw [e00 h0]; omega
    · rw [e01 (by omega) h]
  · intro h
    by_cases h0 : magnitude v < 32
    · rw [e00 h0]; omega
    · by_cases h1 : magnitude v < 8192
      · rw [e01 (by omega) h1]; omega
      · rw [e10 (by omega) h]

theorem encodeInteger_length_mode11 (v : Int) (hv : isInt64 v) (k : Nat) (hk1 : 1 ≤ k)
    (hk : magnitude v < 4 * 256 ^ k) : (encodeInteger v).length ≤ k + 1 := by
  obtain ⟨e00, e01, e10⟩ := encodeInteger_length_small v hv
  have hm := magnitude_lt v hv
  by_cases h1 : magnitude v < 8192
  · have := e01 h1; omega
  by_cases h2 : magnitude v < 2097152
  · have := e10 h2
    have hk2 : 2 ≤ k := by
      by_contra hc
      have hk' : k = 1 := by omega
      subst hk'
      omega
    omega
  obtain ⟨k', hk', hmin⟩ := exists_mode11_count (magnitude v) (by omega) hm
  have hlen : (encodeInteger v).length = k' + 1 := by
    simp [encodeInteger, SerializeInteger_mode11 (some []) v hv (by omega) k' hk' hmin,
      layout11_length]
  rw [hlen]
  by_contra hc
  have : 256 ^ k ≤ 256 ^ (k' - 1) := Nat.pow_le_pow_right (by decide) (by omega)
  omega

theorem beFold_lt (v : Nat) (bs : List Byte) : beFold v bs < (v + 1) * 256 ^ bs.length := by
  rw [beFold_eq]
  have := beFold_zero_lt bs
  calc v * 256 ^ bs.length + beFold 0 bs < v * 256 ^ bs.length + 256 ^ bs.length := by omega
    _ = (v + 1) * 256 ^ bs.length := by ring

/-- The encoder's output for a decoded value is no longer than what the decoder consumed. -/
theorem encodeInteger_length_le_consumed (l r : List Byte) (v : Int)
    (h : DeserializeInteger (some l) = .ok (some r, v)) :
    (encodeInteger v).length + r.length ≤ l.length := by
  have hv := (DeserializeInteger_some_inv (some l) r v h).1
  cases l with
  | nil => simp [DeserializeInteger_empty] at h
  | cons b0 tl =>
    have hb := b0.isLt
    have hmode : modeField b0 = 0 ∨ modeField b0 = 1 ∨ modeField b0 = 2 ∨ modeField b0 = 3 := by
      unfold modeField; omega
    rcases hmode with hm | hm | hm | hm
    · rw [DeserializeInteger_mode00 b0 tl hm] at h
      simp only [Except.ok.injEq, Prod.mk.injEq, Option.some.injEq] at h
      obtain ⟨rfl, rfl⟩ := h
      have := (encodeInteger_length_small _ hv).1 (by rw [magnitude_signedValue]; omega)
      simp only [List.length_cons]
      omega
    · cases tl with
      | nil => simp [DeserializeInteger_mode01_short b0 hm] at h
      | cons b1 tl =>
        have hb1 := b1.isLt
        rw [DeserializeInteger_mode01 b0 b1 tl hm] at h
        simp only [Except.ok.injEq, Prod.mk.injEq, Option.some.injEq] at h
        obtain ⟨rfl, rfl⟩ := h
        have := (encodeInteger_length_small _ hv).2.1 (by rw [magnitude_signedValue]; omega)
        simp only [List.length_cons]
        omega
    · by_cases hl : tl.length < 2
      · simp [DeserializeInteger_mode10_short b0 tl hm hl] at h
      · match tl, hl with
        | b1 :: b2 :: tl', _ =>
          have hb1 := b1.isLt
          have hb2 := b2.isLt
          rw [DeserializeInteger_mode10 b0 b1 b2 tl' hm] at h
          simp only [Except.ok.injEq, Prod.mk.injEq, Option.some.injEq] at h
          obtain ⟨rfl, rfl⟩ := h
          have := (encodeInteger_length_small _ hv).2.2 (by rw [magnitude_signedValue]; omega)
          simp only [List.length_cons]
          omega
        | [_], hl => simp at hl
        | [], hl => simp at hl
    · by_cases hf : decodeFails (b0 :: tl)
      · simp [(DeserializeInteger_fails_iff _).2 hf] at h
      · simp only [decodeFails, requiredLength, hm, not_or, not_and, not_lt] at hf
        simp at hf
        have hl : b0.val / 4 % 8 + 1 ≤ tl.length := by unfold countField at hf; omega
        have hg : b0.val / 4 % 8 = 7 → b0.val % 4 = 0 ∧ (tl.headD 0).val < 128 := by
          intro h7
          have := hf.2 (by unfold countField; omega)
          exact ⟨this.1, by simpa using this.2⟩
        rw [DeserializeInteger_mode11 b0 tl hm hl hg] at h
        simp only [Except.ok.injEq, Prod.mk.injEq, Option.some.injEq] at h
        obtain ⟨rfl, rfl⟩ := h
        have hlen : (tl.take (b0.val / 4 % 8 + 1)).length = b0.val / 4 % 8 + 1 := by
          simp [List.length_take]; omega
        have hlt := beFold_lt (b0.val % 4) (tl.take (b0.val / 4 % 8 + 1))
        rw [hlen] at hlt
        have h4 : b0.val % 4 + 1 ≤ 4 := by omega
        have hlt' : beFold (b0.val % 4) (tl.take (b0.val / 4 % 8 + 1)) <
            4 * 256 ^ (b0.val / 4 % 8 + 1) :=
          lt_of_lt_of_le hlt (Nat.mul_le_mul_right _ h4)
        have := encodeInteger_length_mode11 _ hv (b0.val / 4 % 8 + 1) (by omega)
          (by rw [magnitude_signedValue]; exact hlt')
        simp only [List.length_cons, List.length_drop]
        omega

/-! ## The sign bit -/

set_option maxRecDepth 100000 in
theorem top_bit_clear : ∀ n < 128, n &&& 0x80 = 0 ∧ n ||| 0x80 = n + 128 := by
  decide

theorem firstByte_sign (md low : Nat) (hmd : md < 4) (hl : low < 32) :
    (firstByte 0 md low).val &&& 0x80 = 0 ∧
    (firstByte 1 md low).val = (firstByte 0 md low).val ||| 0x80 := by
  have h0 := firstByte_val 0 md low (by decide) hmd hl
  have h1 := firstByte_val 1 md low (by decide) hmd hl
  obtain ⟨t1, t2⟩ := top_bit_clear (firstByte 0 md low).val (by omega)
  exact ⟨t1, by rw [t2]; omega⟩

/-- The encodings of `v >= 0` and of `-v-1`: the same mode, low bits and tail, with sign
flags 0 and 1. -/
theorem encodeInteger_pair (v : Int) (h0 : 0 ≤ v) (hv : isInt64 v) :
    ∃ md low tl, md < 4 ∧ low < 32 ∧
      encodeInteger v = firstByte 0 md low :: tl ∧
      encodeInteger (-v - 1) = firstByte 1 md low :: tl := by
  have hv' : isInt64 (-v - 1) := by unfold isInt64 at *; omega
  have hs : signBit v = 0 := by unfold signBit; rw [if_neg (by omega)]
  have hs' : signBit (-v - 1) = 1 := by unfold signBit; rw [if_pos (by omega)]
  have hm' : magnitude (-v - 1) = magnitude v := by
    unfold magnitude; rw [if_pos (by omega), if_neg (by omega)]; omega
  have hm := magnitude_lt v hv
  by_cases h00 : magnitude v < 32
  · refine ⟨0, magnitude v, [], by decide, h00, ?_, ?_⟩
    · simp [encodeInteger, SerializeInteger_mode00 (some []) v hv h00, layout00, hs]
    · simp [encodeInteger, SerializeInteger_mode00 (some []) _ hv' (by rw [hm']; exact h00),
        layout00, hs', hm']
  by_cases h01 : magnitude v < 8192
  · refine ⟨1, magnitude v / 256, [byte (magnitude v % 256)], by decide, by omega, ?_, ?_⟩
    · simp [encodeInteger, SerializeInteger_mode01 (some []) v hv (by omega) h01, layout01, hs]
    · simp [encodeInteger,
        SerializeInteger_mode01 (some []) _ hv' (by rw [hm']; omega) (by rw [hm']; exact h01),
        layout01, hs', hm']
  by_cases h10 : magnitude v < 2097152
  · refine ⟨2, magnitude v / 65536,
      [byte (magnitude v / 256 % 256), byte (magnitude v % 256)], by decide, by omega, ?_, ?_⟩
    · simp [encodeInteger, SerializeInteger_mode10 (some []) v hv (by omega) h10, layout10, hs]
    · simp [encodeInteger,
        SerializeInteger_mode10 (some []) _ hv' (by rw [hm']; omega) (by rw [hm']; exact h10),
        layout10, hs', hm']
  obtain ⟨k, hk, hmin⟩ := exists_mode11_count (magnitude v) (by omega) hm
  obtain ⟨hk3, hk8⟩ := mode11_count_bounds _ k hm (by omega) hk hmin
  have hu : magnitude v / 256 ^ k < 4 := by
    rw [Nat.div_lt_iff_lt_mul (Nat.pow_pos (by decide))]; exact hk
  refine ⟨3, (k - 1) * 4 + magnitude v / 256 ^ k, lowBytesBE k (magnitude v), by decide,
    by omega, ?_, ?_⟩
  · simp [encodeInteger, SerializeInteger_mode11 (some []) v hv (by omega) k hk hmin, layout11, hs]
  · simp [encodeInteger,
      SerializeInteger_mode11 (some []) _ hv' (by rw [hm']; omega) k (by rw [hm']; exact hk)
        (by rw [hm']; exact hmin), layout11, hs', hm']

/-! ## The temporary buffer of the encoder -/

theorem mode11Loop_length (k : Nat) : ∀ (uv bc : Nat) (t : List Byte), uv < 4 * 256 ^ k →
    (mode11Loop uv bc t).2.2.length = t.length ∧ (mode11Loop uv bc t).2.1 ≤ bc + k := by
  induction k with
  | zero =>
    intro uv bc t h
    rw [mode11Loop_le uv bc t (by omega)]
    exact ⟨rfl, by simp⟩
  | succ k ih =>
    intro uv bc t h
    by_cases h3 : uv > 3
    · rw [mode11Loop_gt uv bc t h3]
      have h1 : uv / 256 < 4 * 256 ^ k := by
        rw [Nat.div_lt_iff_lt_mul (by decide)]
        calc uv < 4 * 256 ^ (k + 1) := h
          _ = 4 * 256 ^ k * 256 := by ring
      obtain ⟨i1, i2⟩ := ih (uv / 256) (bc + 1) (t.set (8 - bc) (byte (uv % 256))) h1
      exact ⟨by rw [i1, List.length_set], by omega⟩
    · rw [mode11Loop_le uv bc t (by omega)]
      exact ⟨rfl, by simp⟩

theorem mode11LoopChecked_eq (k : Nat) : ∀ (uv bc : Nat) (t : List Byte), t.length = 9 →
    bc + k ≤ 8 → uv < 4 * 256 ^ k →
    mode11LoopChecked uv (bc : Int) t =
      .ok ((mode11Loop uv bc t).1, ((mode11Loop uv bc t).2.1 : Int), (mode11Loop uv bc t).2.2) := by
  induction k with
  | zero =>
    intro uv bc t _ _ h
    rw [mode11Loop_le uv bc t (by omega), mode11LoopChecked, if_neg (by omega)]
  | succ k ih =>
    intro uv bc t ht hb h
    by_cases h3 : uv > 3
    · have h1 : uv / 256 < 4 * 256 ^ k := by
        rw [Nat.div_lt_iff_lt_mul (by decide)]
        calc uv < 4 * 256 ^ (k + 1) := h
          _ = 4 * 256 ^ k * 256 := by ring
      have hst : storeChecked t (9 - ((bc : Int) + 1)) (byte (uv &&& 0xff)) =
          .ok (t.set (8 - bc) (byte (uv % 256))) := by
        unfold storeChecked
        rw [if_pos (by rw [ht]; omega), and_0xff]
        have e : (9 - ((bc : Int) + 1)).toNat = 8 - bc := by omega
        rw [e]
      rw [mode11Loop_gt uv bc t h3, mode11LoopChecked, if_pos h3, hst]
      simp only [shr_8]
      have := ih (uv / 256) (bc + 1) (t.set (8 - bc) (byte (uv % 256)))
        (by rw [List.length_set]; exact ht) (by omega) h1
      simpa using this
    · rw [mode11Loop_le uv bc t (by omega), mode11LoopChecked, if_neg h3]

theorem mode11Checked_eq (buf : Slice) (v : Int) (hv : isInt64 v)
    (h0 : 2097152 ≤ magnitude v) :
    mode11Checked buf (signBit v * 128) (magnitude v) = .ok (SerializeInteger buf v) ∧
    3 ≤ (mode11Loop (magnitude v) 0 (List.replicate 9 0)).2.1 ∧
    (mode11Loop (magnitude v) 0 (List.replicate 9 0)).2.1 ≤ 8 := by
  have hm := magnitude_lt v hv
  obtain ⟨k, hk, hmin⟩ := exists_mode11_count (magnitude v) h0 hm
  obtain ⟨hk3, hk8⟩ := mode11_count_bounds _ k hm h0 hk hmin
  have hspec := mode11Loop_spec k (magnitude v) 0 (List.replicate 9 0) (by simp) (by omega) hk
    (Or.inr hmin)
  have hchk := mode11LoopChecked_eq k (magnitude v) 0 (List.replicate 9 0) (by simp) (by omega) hk
  have hlen := (mode11Loop_length k (magnitude v) 0 (List.replicate 9 0) hk).1
  have hbc : (mode11Loop (magnitude v) 0 (List.replicate 9 0)).2.1 = k := by
    rw [hspec]; simp
  refine ⟨?_, by omega, by omega⟩
  unfold mode11Checked SerializeInteger
  simp only [signmask_eq, uv_eq v hv]
  rw [if_neg (by omega), if_neg (by omega), if_neg (by omega)]
  simp only [Nat.cast_zero] at hchk
  simp only [hchk, hbc]
  have e1 : ((8 : Int) - (k : Int)).toNat = 8 - k := by omega
  have hlen' : (mode11Loop (magnitude v) 0 (List.replicate 9 0)).2.2.length = 9 := by
    rw [hlen]; simp
  simp only [storeChecked, hlen', e1]
  rw [if_pos (by omega)]
  simp only [List.length_set, hlen']
  rw [if_pos (by omega)]

theorem encodeInteger_length_bounds (v : Int) (hv : isInt64 v) :
    1 ≤ (encodeInteger v).length ∧ (encodeInteger v).length ≤ 9 := by
  constructor
  · have hd := DeserializeInteger_encodeInteger v hv []
    cases he : encodeInteger v with
    | nil =>
      rw [he] at hd
      simp [DeserializeInteger_empty] at hd
    | cons x xs => simp
  · have hm := magnitude_lt v hv
    exact encodeInteger_length_mode11 v hv 8 (by decide) (by norm_num; omega)

/-! ## Echo with a payload that does not decode -/

theorem echo_undecodable (srv : Server) (w : World) (ctx : Nat) (req out : Slice) (rid : Int)
    (p : List Byte) (hd : decodeHeader req = some (rid, 0, 2, p)) (hpos : rid > 0)
    (hp : DeserializeInteger (some p) = .ok (none, 0)) :
    srv.ProcessRequest w ctx req out =
      .ok (some (out.getD [] ++ encodeInteger rid ++ encodeInteger 1), w) := by
  have hr := decodeHeader_isInt64 req rid 0 2 p hd
  rw [ProcessRequest_builtin srv w ctx req out rid 2 p hd, successHeader_pos out rid hr hpos]
  simp only [Server.callFunctionOnServer, Server.handleServerRequestEcho, hp, bind, Except.bind,
    pure, Except.pure]
  simp only [show ¬ ((2 : Int) = 0) by decide, show ¬ ((2 : Int) = 1) by decide, if_false, if_true]
  simp [goAppend, finishRequest_some out rid hpos]

/-! ## Lifetime of a registry entry -/

theorem find_addRequest_ne (c : canceller) (ctx : Nat) (k k' : Int) (hne : k' ≠ k) :
    (c.addRequest ctx k).2.find k' = c.find k' := by
  have hk : (k' == k) = false := by simpa using hne
  have : (c.addRequest ctx k).2.find k' = (c.delete k).find k' := by
    simp only [canceller.addRequest, canceller.find, List.lookup, hk]
  rw [this, find_delete_ne c k k' hne]

theorem finishRequest_world (out : Slice) (rid : Int) (x : Slice) (w : World) :
    ∃ resp, finishRequest out rid (.ok (x, w)) = .ok (resp, w) := by
  unfold finishRequest
  simp only
  split
  · exact ⟨_, rfl⟩
  · split <;> exact ⟨_, rfl⟩

/-! ## The error of `NewServer` -/

theorem validateServices_some (rest : List ServerService) :
    ∀ (pre : List ServerService) (e : NewServerError),
      (pre.map (·.GetServiceId)).Nodup → (∀ x ∈ pre, 0 < x.GetServiceId) →
      validateServices (pre ++ rest) pre.length rest = some e →
      ∃ mid s tail, rest = mid ++ s :: tail ∧
        ((pre ++ mid).map (·.GetServiceId)).Nodup ∧ (∀ x ∈ pre ++ mid, 0 < x.GetServiceId) ∧
        ((s.GetServiceId ≤ 0 ∧ e = .invalidId s.GetServiceId) ∨
         (0 < s.GetServiceId ∧ ∃ i, i < (pre ++ mid).length ∧
            ((pre ++ mid)[i]?.map (·.GetServiceId)) = some s.GetServiceId ∧
            e = .sameId i (pre ++ mid).length s.GetServiceId)) := by
  induction rest with
  | nil => intro pre e _ _ h; simp [validateServices] at h
  | cons s rest ih =>
    intro pre e hnd hpos h
    unfold validateServices at h
    by_cases hle : s.GetServiceId ≤ 0
    · simp only [hle, if_true, Option.some.injEq] at h
      exact ⟨[], s, rest, rfl, by simpa using hnd, by simpa using hpos, Or.inl ⟨hle, h.symm⟩⟩
    · simp only [hle, if_false] at h
      cases hfind : (List.range pre.length).find?
          (fun i => ((pre ++ s :: rest)[i]?.map (·.GetServiceId)) = some s.GetServiceId) with
      | some i =>
        rw [hfind] at h
        simp only [Option.some.injEq] at h
        have hi : i < pre.length := List.mem_range.1 (List.mem_of_find?_eq_some hfind)
        have hp := List.find?_some hfind
        simp only [List.getElem?_append_left hi, decide_eq_true_eq] at hp
        refine ⟨[], s, rest, rfl, by simpa using hnd, by simpa using hpos, Or.inr ⟨by omega, i, ?_, ?_, ?_⟩⟩
        · simpa using hi
        · simpa using hp
        · simpa using h.symm
      | none =>
        rw [hfind] at h
        simp only at h
        have hin := (range_find_none (pre ++ s :: rest) s.GetServiceId pre (s :: rest) rfl).1 hfind
        have h' : validateServices ((pre ++ [s]) ++ rest) (pre ++ [s]).length rest = some e := by
          simpa using h
        have hnd' : ((pre ++ [s]).map (·.GetServiceId)).Nodup := by
          rw [List.map_append, List.nodup_append]
          refine ⟨hnd, by simp, ?_⟩
          intro a ha hb
          simp only [List.map_cons, List.map_nil, List.mem_singleton] at hb
          rw [hb] at ha
          exact hin ha
        have hpos' : ∀ x ∈ pre ++ [s], 0 < x.GetServiceId := by
          intro x hx
          rcases List.mem_append.1 hx with hx | hx
          · exact hpos x hx
          · simp only [List.mem_singleton] at hx
            rw [hx]; omega
        obtain ⟨mid, s', tail, hr, h1, h2, h3⟩ := ih (pre ++ [s]) e hnd' hpos' h'
        refine ⟨s :: mid, s', tail, by rw [hr]; rfl, ?_, ?_, ?_⟩
        · simpa using h1
        · simpa using h2
        · simpa using h3

/-- What the error of `NewServer` carries: the services before the offending one have
positive, pairwise distinct ids; an invalid-id error carries the id of the offending service
(not its index), and a same-id error carries an earlier index with the same id, the index of
the offending service and the shared id. -/
theorem NewServer_error_spec (services : List ServerService) (e : NewServerError)
    (h : NewServer services = .error e) :
    ∃ mid s tail, services = mid ++ s :: tail ∧
      (mid.map (·.GetServiceId)).Nodup ∧ (∀ x ∈ mid, 0 < x.GetServiceId) ∧
      ((s.GetServiceId ≤ 0 ∧ e = .invalidId s.GetServiceId) ∨
       (0 < s.GetServiceId ∧ ∃ i, i < mid.length ∧
          (mid[i]?.map (·.GetServiceId)) = some s.GetServiceId ∧
          e = .sameId i mid.length s.GetServiceId)) := by
  unfold NewServer at h
  cases hv : validateServices services 0 services with
  | none => rw [hv] at h; cases h
  | some e' =>
    rw [hv] at h
    simp only [Except.error.injEq] at h
    subst h
    have := validateServices_some services [] e' (by simp) (by simp) (by simpa using hv)
    simpa using this

/-! ## Claims on the integer codec -/

/-- C1: integer round trip. For every int64 `v` (the minimum and the maximum included) and
every byte sequence `rest`, `SerializeInteger([], v)` is a non-nil slice `enc`, and
`DeserializeInteger` applied to `enc` followed by `rest` succeeds and returns exactly
`(rest, v)`; in particular `DeserializeInteger(SerializeInteger([], v))` returns `v` with an
empty remainder. -/
theorem integer_round_trip (v : Int) (hv : isInt64 v) (rest : List Byte) :
    ∃ enc, SerializeInteger (some []) v = some enc ∧
      DeserializeInteger (some (enc ++ rest)) = .ok (some rest, v) ∧
      DeserializeInteger (SerializeInteger (some []) v) = .ok (some [], v) := by
  obtain ⟨enc, h1, _, h3⟩ := SerializeInteger_layout (some []) v hv
  refine ⟨enc, by simpa using h1, h3 rest, ?_⟩
  rw [h1]
  simpa using h3 []

theorem integer_round_trip_witness :
    isInt64 (-9223372036854775808) ∧
    ∃ enc, SerializeInteger (some []) (-9223372036854775808) = some enc ∧
      DeserializeInteger (some (enc ++ [7, 8])) = .ok (some [7, 8], -9223372036854775808) ∧
      DeserializeInteger (SerializeInteger (some []) (-9223372036854775808)) =
        .ok (some [], -9223372036854775808) :=
  ⟨by decide, integer_round_trip (-9223372036854775808) (by decide) [7, 8]⟩

/-- C2: encoder layout and minimal mode. For every buffer `buf` and int64 `v` with magnitude
`m` and sign bit `s`, `SerializeInteger(buf, v)` is `buf` followed by the layout of `m` in the
smallest mode that fits: the byte `s|00|m` when `m < 32`; the two bytes of mode 01 when
`32 <= m < 8192`; the three bytes of mode 10 when `8192 <= m < 2097152`; otherwise mode 11 with
first byte `s|11|(k-1)<<2|(m>>8k)` and the `k` low bytes of `m`, most significant first, `k`
being the least count with `m < 2^(8k+2)`. -/
theorem encoder_layout_minimal_mode (buf : Slice) (v : Int) (hv : isInt64 v) :
    (magnitude v < 32 →
      SerializeInteger buf v = some (buf.getD [] ++ layout00 (signBit v) (magnitude v))) ∧
    (32 ≤ magnitude v → magnitude v < 8192 →
      SerializeInteger buf v = some (buf.getD [] ++ layout01 (signBit v) (magnitude v))) ∧
    (8192 ≤ magnitude v → magnitude v < 2097152 →
      SerializeInteger buf v = some (buf.getD [] ++ layout10 (signBit v) (magnitude v))) ∧
    (2097152 ≤ magnitude v → ∀ k, magnitude v < 2 ^ (8 * k + 2) →
      (∀ j, j < k → 2 ^ (8 * j + 2) ≤ magnitude v) →
      SerializeInteger buf v = some (buf.getD [] ++ layout11 (signBit v) k (magnitude v))) := by
  refine ⟨SerializeInteger_mode00 buf v hv, SerializeInteger_mode01 buf v hv,
    SerializeInteger_mode10 buf v hv, ?_⟩
  intro h0 k hk hleast
  rw [two_pow_count] at hk
  have hk0 : k ≠ 0 := by
    rintro rfl
    simp at hk; omega
  have hmin := hleast (k - 1) (by omega)
  rw [two_pow_count] at hmin
  exact SerializeInteger_mode11 buf v hv h0 k hk hmin

theorem encoder_layout_minimal_mode_witness :
    isInt64 (-0x1234567) ∧
    ((magnitude (-0x1234567) < 32 →
      SerializeInteger (some [6]) (-0x1234567) =
        some ((some [6] : Slice).getD [] ++ layout00 (signBit (-0x1234567)) (magnitude (-0x1234567)))) ∧
    (32 ≤ magnitude (-0x1234567) → magnitude (-0x1234567) < 8192 →
      SerializeInteger (some [6]) (-0x1234567) =
        some ((some [6] : Slice).getD [] ++ layout01 (signBit (-0x1234567)) (magnitude (-0x1234567)))) ∧
    (8192 ≤ magnitude (-0x1234567) → magnitude (-0x1234567) < 2097152 →
      SerializeInteger (some [6]) (-0x1234567) =
        some ((some [6] : Slice).getD [] ++ layout10 (signBit (-0x1234567)) (magnitude (-0x1234567)))) ∧
    (2097152 ≤ magnitude (-0x1234567) → ∀ k, magnitude (-0x1234567) < 2 ^ (8 * k + 2) →
      (∀ j, j < k → 2 ^ (8 * j + 2) ≤ magnitude (-0x1234567)) →
      SerializeInteger (some [6]) (-0x1234567) =
        some ((some [6] : Slice).getD [] ++ layout11 (signBit (-0x1234567)) k (magnitude (-0x1234567))))) :=
  ⟨by decide, encoder_layout_minimal_mode (some [6]) (-0x1234567) (by decide)⟩

/-- C3: `DeserializeInteger(b)` fails (returns the nil slice) if and only if `b` is empty, or
shorter than the length required by the mode in its first byte (2 bytes for mode 01, 3 for
mode 10, 1 + (count field + 1) for mode 11), or the mode is 11 with byte count 8 and one of
the two low bits of the first byte or the top bit of the first extra byte is set; on every
other input it succeeds, with a non-nil remainder. -/
theorem decode_fails_iff (b : Slice) :
    (DeserializeInteger b = .ok (none, 0) ↔ decodeFails (b.getD [])) ∧
    (¬ decodeFails (b.getD []) → ∃ rest v, DeserializeInteger b = .ok (some rest, v)) := by
  have hiff : DeserializeInteger b = .ok (none, 0) ↔ decodeFails (b.getD []) := by
    cases b with
    | none => simp [decodeFails, DeserializeInteger_nil]
    | some l => exact DeserializeInteger_fails_iff l
  refine ⟨hiff, fun hn => ?_⟩
  rcases DeserializeInteger_total b with h | h
  · exact absurd (hiff.1 h) hn
  · exact h

theorem decode_fails_iff_witness :
    ¬ decodeFails ((some [0x70, 0, 0, 0, 0, 0x11, 9] : Slice).getD []) ∧
    ∃ rest v, DeserializeInteger (some [0x70, 0, 0, 0, 0, 0x11, 9]) = .ok (some rest, v) :=
  ⟨by decide, (decode_fails_iff (some [0x70, 0, 0, 0, 0, 0x11, 9])).2 (by decide)⟩

/-- C4: decoding is mode-agnostic. For every magnitude `m < 2^63`, sign bit `s` and trailing
bytes `rest`, and every mode able to hold `m` (mode 00 if `m < 32`, mode 01 if `m < 8192`,
mode 10 if `m < 2097152`, mode 11 with any byte count `k` in 1..8 with `m < 2^(8k+2)`), the
bytes laying out `m` in that mode followed by `rest` decode to `(rest, m)` when `s = 0` and to
`(rest, -m-1)` when `s = 1`: the same result as for the encoder's own output for that
integer. -/
theorem decoding_mode_agnostic (s m : Nat) (hs : s < 2) (hm : m < 2 ^ 63) (rest : List Byte) :
    (m < 32 →
      DeserializeInteger (some (layout00 s m ++ rest)) = .ok (some rest, signedValue s m)) ∧
    (m < 8192 →
      DeserializeInteger (some (layout01 s m ++ rest)) = .ok (some rest, signedValue s m)) ∧
    (m < 2097152 →
      DeserializeInteger (some (layout10 s m ++ rest)) = .ok (some rest, signedValue s m)) ∧
    (∀ k, 1 ≤ k → k ≤ 8 → m < 2 ^ (8 * k + 2) →
      DeserializeInteger (some (layout11 s k m ++ rest)) = .ok (some rest, signedValue s m)) ∧
    DeserializeInteger (some (encodeInteger (signedValue s m) ++ rest)) =
      .ok (some rest, signedValue s m) := by
  refine ⟨fun h => DeserializeInteger_layout00 s m hs h rest,
    fun h => DeserializeInteger_layout01 s m hs h rest,
    fun h => DeserializeInteger_layout10 s m hs h rest, ?_, ?_⟩
  · intro k hk1 hk8 hk
    rw [two_pow_count] at hk
    exact DeserializeInteger_layout11 s k m hs hk1 hk8 hm hk rest
  · apply DeserializeInteger_encodeInteger
    unfold isInt64 signedValue
    split <;> omega

theorem decoding_mode_agnostic_witness :
    (0 < 2 ∧ 17 < 2 ^ 63) ∧
    ((17 < 32 →
      DeserializeInteger (some (layout00 0 17 ++ [5])) = .ok (some [5], signedValue 0 17)) ∧
    (17 < 8192 →
      DeserializeInteger (some (layout01 0 17 ++ [5])) = .ok (some [5], signedValue 0 17)) ∧
    (17 < 2097152 →
      DeserializeInteger (some (layout10 0 17 ++ [5])) = .ok (some [5], signedValue 0 17)) ∧
    (∀ k, 1 ≤ k → k ≤ 8 → 17 < 2 ^ (8 * k + 2) →
      DeserializeInteger (some (layout11 0 k 17 ++ [5])) = .ok (some [5], signedValue 0 17)) ∧
    DeserializeInteger (some (encodeInteger (signedValue 0 17) ++ [5])) =
      .ok (some [5], signedValue 0 17)) :=
  ⟨⟨by decide, by decide⟩, decoding_mode_agnostic 0 17 (by decide) (by decide) [5]⟩

/-! ## Claims on the blob and string codec -/

/-- C5: wire-format errors are meant never to be fatal, and `DeserializeBlob` is documented to
return nil on a format error; yet on the one-byte input `0x80`, whose leading length integer
decodes to `-1`, the length check `size > len(buf)` passes and `buf[:size]` faults with a
slice bound out of range, in `DeserializeBlob` and so in `DeserializeString`. -/
theorem blob_negative_length_faults :
    DeserializeInteger (some [0x80]) = .ok (some [], -1) ∧
    DeserializeBlob (some [0x80]) = .error .sliceBoundsOutOfRange ∧
    DeserializeString (some [0x80]) = .error .sliceBoundsOutOfRange := by
  decide

/-- C6: blob and string round trip. For every byte sequence `data` and trailing bytes `rest`
(of a total length that a Go slice can have), `SerializeBlob([], data)` is a non-nil slice
`enc` and `DeserializeBlob(enc ++ rest)` succeeds with payload `data` and remainder `rest`;
likewise `DeserializeString(SerializeString([], s) ++ rest)` returns `(rest, s)`. -/
theorem blob_string_round_trip (data rest : List Byte)
    (hlen : data.length + rest.length < 2 ^ 63) :
    (∃ enc, SerializeBlob (some []) (some data) = some enc ∧
      DeserializeBlob (some (enc ++ rest)) = .ok (some rest, some data)) ∧
    (∃ enc, SerializeString (some []) data = some enc ∧
      DeserializeString (some (enc ++ rest)) = .ok (some rest, data)) := by
  have hser : SerializeBlob (some []) (some data) =
      some (encodeInteger (data.length : Int) ++ data) := by
    rw [SerializeBlob_some]
    simp [Slice.len, int64_of_lt data.length (by omega)]
  have hint : DeserializeInteger (some (encodeInteger (data.length : Int) ++ data ++ rest)) =
      .ok (some (data ++ rest), (data.length : Int)) := by
    rw [List.append_assoc]
    exact DeserializeInteger_encodeInteger _ (by unfold isInt64; omega) _
  have hblob : DeserializeBlob (some (encodeInteger (data.length : Int) ++ data ++ rest)) =
      .ok (some rest, some data) := by
    rw [DeserializeBlob_of_fits _ _ _ hint (by simp; omega) (by omega) (by simp)]
    simp
  refine ⟨⟨_, hser, hblob⟩, ⟨_, hser, ?_⟩⟩
  simp only [DeserializeString, hblob, bind, Except.bind, pure, Except.pure]
  simp

theorem blob_string_round_trip_witness :
    ([104, 105] : List Byte).length + ([7] : List Byte).length < 2 ^ 63 ∧
    ((∃ enc, SerializeBlob (some []) (some [104, 105]) = some enc ∧
      DeserializeBlob (some (enc ++ [7])) = .ok (some [7], some [104, 105])) ∧
    (∃ enc, SerializeString (some []) [104, 105] = some enc ∧
      DeserializeString (some (enc ++ [7])) = .ok (some [7], [104, 105]))) :=
  ⟨by decide, blob_string_round_trip [104, 105] [7] (by decide)⟩

/-- C7: `SerializeBlob(buf, data)` and `SerializeString(buf, s)` return the discard sentinel
(nil), producing no bytes, whenever `buf` is the discard sentinel, whatever the data; for
every real buffer `buf` (the empty one included) they return
`buf ++ SerializeInteger([], len(data)) ++ data`. -/
theorem blob_encode_discard_or_append (data : Slice) (s : GoString) :
    SerializeBlob none data = none ∧
    SerializeString none s = none ∧
    ∀ buf : List Byte,
      SerializeBlob (some buf) data =
        some (buf ++ encodeInteger (int64 data.len) ++ data.getD []) ∧
      SerializeString (some buf) s = some (buf ++ encodeInteger (int64 s.length) ++ s) := by
  refine ⟨rfl, rfl, fun buf => ⟨SerializeBlob_some buf data, ?_⟩⟩
  unfold SerializeString
  rw [SerializeBlob_some]
  rfl

/-- C8: `DeserializeBlob(b)` fails whenever the leading length integer fails to decode or the
decoded length exceeds the number of bytes remaining after it; when the decoded length `n`
satisfies `0 <= n <= remaining`, it succeeds, returning exactly the next `n` bytes as the
payload and the bytes after them as the remainder, which is empty but not nil when `n` equals
the remaining count. -/
theorem blob_decode_cases (b : Slice) (hb : b.len < 2 ^ 63) :
    (DeserializeInteger b = .ok (none, 0) → DeserializeBlob b = .ok (none, none)) ∧
    (∀ r n, DeserializeInteger b = .ok (some r, n) → (r.length : Int) < n →
      DeserializeBlob b = .ok (none, none)) ∧
    (∀ r n, DeserializeInteger b = .ok (some r, n) → 0 ≤ n → n ≤ (r.length : Int) →
      DeserializeBlob b = .ok (some (r.drop n.toNat), some (r.take n.toNat)) ∧
      (n = (r.length : Int) → r.drop n.toNat = [])) := by
  have hr : ∀ r n, DeserializeInteger b = .ok (some r, n) → r.length < 2 ^ 63 := by
    intro r n h
    obtain ⟨_, pre, _, rfl⟩ := DeserializeInteger_some_inv b r n h
    simp [Slice.len] at hb
    omega
  refine ⟨DeserializeBlob_of_fail b, ?_, ?_⟩
  · intro r n h hn
    exact DeserializeBlob_of_long b r n h (hr r n h) hn
  · intro r n h h0 hn
    refine ⟨DeserializeBlob_of_fits b r n h (hr r n h) h0 hn, ?_⟩
    intro he
    rw [he]
    simp

theorem blob_decode_cases_witness :
    Slice.len (some [2, 104, 105]) < 2 ^ 63 ∧
    ((DeserializeInteger (some [2, 104, 105]) = .ok (none, 0) →
      DeserializeBlob (some [2, 104, 105]) = .ok (none, none)) ∧
    (∀ r n, DeserializeInteger (some [2, 104, 105]) = .ok (some r, n) → (r.length : Int) < n →
      DeserializeBlob (some [2, 104, 105]) = .ok (none, none)) ∧
    (∀ r n, DeserializeInteger (some [2, 104, 105]) = .ok (some r, n) → 0 ≤ n →
      n ≤ (r.length : Int) →
      DeserializeBlob (some [2, 104, 105]) = .ok (some (r.drop n.toNat), some (r.take n.toNat)) ∧
      (n = (r.length : Int) → r.drop n.toNat = []))) :=
  ⟨by decide, blob_decode_cases (some [2, 104, 105]) (by decide)⟩

/-! ## Claims on the dispatcher -/

/-- C9: `ProcessRequest` completes and returns absent (nil) if and only if decoding
`requestId`, `serviceId` or `functionId` from the request bytes fails, or the decoded
`requestId` is `<= 0`; so for every request with a well-formed header and `requestId > 0` it
returns a response, whatever the server, its services and handlers, the state of the registry
(and what happens to it while a handler runs), the service id, function id and payload. -/
theorem process_request_absent_iff (srv : Server) (w : World) (ctx : Nat) (req out : Slice) :
    ∃ resp w', srv.ProcessRequest w ctx req out = .ok (resp, w') ∧
      (resp = none ↔
        decodeHeader req = none ∨
        ∃ rid sid fid p, decodeHeader req = some (rid, sid, fid, p) ∧ rid ≤ 0) := by
  rw [ProcessRequest_eq]
  cases hd : decodeHeader req with
  | none => exact ⟨none, w, rfl, by simp⟩
  | some hdr =>
    obtain ⟨rid, sid, fid, p⟩ := hdr
    have hr := decodeHeader_isInt64 req rid sid fid p hd
    obtain ⟨r, w', h⟩ := handleService_total srv w ctx rid sid fid (some p) (successHeader out rid)
    simp only [h, finishRequest]
    by_cases hpos : rid ≤ 0
    · exact ⟨none, w', by simp [hpos], by simp [hpos]⟩
    · by_cases hn : r = none
      · refine ⟨some (failureResponse out rid), w', by simp [hpos, hn, failure_bytes out rid hr], ?_⟩
        simp [hpos]
      · refine ⟨r, w', by simp [hpos, hn], ?_⟩
        simp [hpos, hn]

/-- C10: failure response. For every request with a well-formed header, `requestId > 0` and
every output buffer `out`, when the service id is neither 0 nor the id of a registered service,
or the service id is 0 and the function id is not 0, 1 or 2, or the matching service's handler
returns absent, `ProcessRequest` returns exactly
`out ++ SerializeInteger([], requestId) ++ SerializeInteger([], 0)`: status 0, no body, and
none of the bytes written during the failed attempt. -/
theorem failure_response (srv : Server) (w : World) (ctx : Nat) (req out : Slice)
    (rid sid fid : Int) (p : List Byte)
    (hd : decodeHeader req = some (rid, sid, fid, p)) (hpos : rid > 0)
    (hfail :
      (sid ≠ 0 ∧ ∀ svc ∈ srv.services, svc.GetServiceId ≠ sid) ∨
      (sid = 0 ∧ fid ≠ 0 ∧ fid ≠ 1 ∧ fid ≠ 2) ∨
      (sid ≠ 0 ∧ ∃ svc, srv.services.find? (fun service => service.GetServiceId = sid) = some svc ∧
        (svc.CallFunction (w.canceller.addRequest ctx rid).1 fid (some p)
          (SerializeInteger (SerializeInteger out rid) 1) (w.canceller.addRequest ctx rid).2).1 =
            none)) :
    ∃ w', srv.ProcessRequest w ctx req out =
      .ok (some (out.getD [] ++ encodeInteger rid ++ encodeInteger 0), w') := by
  have hr := decodeHeader_isInt64 req rid sid fid p hd
  have hsh : successHeader out rid = SerializeInteger (SerializeInteger out rid) 1 := by
    simp [successHeader, hpos]
  rw [ProcessRequest_eq, hd]
  simp only
  rcases hfail with ⟨hs, hn⟩ | ⟨hs, h0, h1, h2⟩ | ⟨hs, svc, hf, hc⟩
  · have hfind : srv.services.find? (fun service => service.GetServiceId = sid) = none := by
      rw [List.find?_eq_none]
      intro svc hm
      simpa using hn svc hm
    refine ⟨w, ?_⟩
    simp only [Server.handleService, if_neg hs, hfind]
    exact finishRequest_absent out rid hr hpos w
  · refine ⟨w, ?_⟩
    simp only [Server.handleService, if_pos hs, callFunctionOnServer_unknown srv w fid _ _ h0 h1 h2]
    exact finishRequest_absent out rid hr hpos w
  · have ha := callFunctionOnService_absent srv w ctx svc rid fid (some p)
      (successHeader out rid) (by rw [hsh]; exact hc)
    refine ⟨(srv.callFunctionOnService w ctx svc rid fid (some p) (successHeader out rid)).2, ?_⟩
    simp only [Server.handleService, if_neg hs, hf]
    rw [show srv.callFunctionOnService w ctx svc rid fid (some p) (successHeader out rid) =
      (none, (srv.callFunctionOnService w ctx svc rid fid (some p) (successHeader out rid)).2) from
      Prod.ext ha rfl]
    exact finishRequest_absent out rid hr hpos _

theorem failure_response_witness :
    (decodeHeader (some [1, 5, 0, 9]) = some (1, 5, 0, [9]) ∧ (1 : Int) > 0 ∧
      ((5 : Int) ≠ 0 ∧ ∀ svc ∈ (Server.mk [absentService 7]).services, svc.GetServiceId ≠ 5)) ∧
    ∃ w', (Server.mk [absentService 7]).ProcessRequest (World.mk canceller.new []) 0
        (some [1, 5, 0, 9]) (some [6, 6]) =
      .ok (some ((some [6, 6] : Slice).getD [] ++ encodeInteger 1 ++ encodeInteger 0), w') :=
  ⟨⟨by decide, by decide, by decide, by simp [absentService]⟩,
    failure_response (Server.mk [absentService 7]) (World.mk canceller.new []) 0
      (some [1, 5, 0, 9]) (some [6, 6]) 1 5 0 [9] (by decide) (by decide)
      (Or.inl ⟨by decide, by simp [absentService]⟩)⟩

/-! ## Claims on service calls -/

/-- C11: service success path. For every request with a well-formed header and
`requestId > 0` whose service id is that of a service registered with the server, when the
call is not cancelled (`requestFinished` still finds the entry) and the handler's result is
not absent: the handler is invoked exactly once, with the decoded function id, the bytes
remaining after the three header integers and the buffer
`out ++ SerializeInteger([], requestId) ++ SerializeInteger([], 1)`, and `ProcessRequest`
returns the handler's result unchanged. -/
theorem service_success_path (services : List ServerService) (srv : Server) (c0 : canceller)
    (hsrv : NewServer services = .ok (srv, c0)) (w : World) (ctx : Nat) (req out : Slice)
    (rid sid fid : Int) (p : List Byte) (svc : ServerService)
    (hd : decodeHeader req = some (rid, sid, fid, p)) (hpos : rid > 0)
    (hm : svc ∈ services) (hid : svc.GetServiceId = sid)
    (hnc : ((handlerRun w ctx svc rid fid p
      (some (out.getD [] ++ encodeInteger rid ++ encodeInteger 1))).2.requestFinished rid).1 =
        false)
    (hres : (handlerRun w ctx svc rid fid p
      (some (out.getD [] ++ encodeInteger rid ++ encodeInteger 1))).1 ≠ none) :
    ∃ w', srv.ProcessRequest w ctx req out =
        .ok ((handlerRun w ctx svc rid fid p
          (some (out.getD [] ++ encodeInteger rid ++ encodeInteger 1))).1, w') ∧
      w'.calls = callRecord w ctx svc rid fid p
        (some (out.getD [] ++ encodeInteger rid ++ encodeInteger 1)) :: w.calls := by
  have hr := decodeHeader_isInt64 req rid sid fid p hd
  obtain ⟨hs, hf⟩ := find_registered services srv c0 hsrv svc hm
  rw [hid] at hs hf
  rw [ProcessRequest_service srv w ctx req out rid sid fid p svc hd hs hf,
    successHeader_pos out rid hr hpos, callFunctionOnService_eq, hnc]
  refine ⟨World.mk ((handlerRun w ctx svc rid fid p
      (some (out.getD [] ++ encodeInteger rid ++ encodeInteger 1))).2.requestFinished rid).2
    (callRecord w ctx svc rid fid p
      (some (out.getD [] ++ encodeInteger rid ++ encodeInteger 1)) :: w.calls), ?_, rfl⟩
  have hn : ¬ rid ≤ 0 := by omega
  simp only [finishRequest, Bool.false_eq_true, if_false, hn, hres]

set_option maxRecDepth 100000 in
theorem service_success_path_witness :
    (NewServer [addService 1] = .ok (Server.mk [addService 1], canceller.new) ∧
      decodeHeader (some [1, 1, 2, 6, 7]) = some (1, 1, 2, [6, 7]) ∧ (1 : Int) > 0 ∧
      addService 1 ∈ [addService 1] ∧ (addService 1).GetServiceId = 1) ∧
    ∃ w', (Server.mk [addService 1]).ProcessRequest (World.mk canceller.new []) 0
        (some [1, 1, 2, 6, 7]) (some [6, 6, 6]) = .ok (some [6, 6, 6, 1, 1, 13], w') ∧
      w'.calls = [Call.mk 1 0 2 (some [6, 7]) (some [6, 6, 6, 1, 1])] :=
  ⟨⟨rfl, by decide, by decide, by simp, rfl⟩,
    service_success_path [addService 1] (Server.mk [addService 1]) canceller.new rfl
      (World.mk canceller.new []) 0 (some [1, 1, 2, 6, 7]) (some [6, 6, 6]) 1 1 2 [6, 7]
      (addService 1) (by decide) (by decide) (by simp) rfl (by decide) (by decide)⟩

/-- C12: cancelled call. For every request with `requestId = r > 0` to a service registered
with the server, if `r`'s registry entry is gone by the time the handler returns
(`requestFinished(r)` finds it absent), `ProcessRequest` returns exactly
`out ++ SerializeInteger([], r) ++ SerializeInteger([], 0)`, whatever the handler returned;
and a cancel request (service 0, function 1) sent with request id 0 returns absent. -/
theorem cancelled_call (services : List ServerService) (srv : Server) (c0 : canceller)
    (hsrv : NewServer services = .ok (srv, c0)) (w : World) (ctx : Nat) (req out : Slice)
    (rid sid fid : Int) (p : List Byte) (svc : ServerService)
    (hd : decodeHeader req = some (rid, sid, fid, p)) (hpos : rid > 0)
    (hm : svc ∈ services) (hid : svc.GetServiceId = sid)
    (hc : ((handlerRun w ctx svc rid fid p
      (some (out.getD [] ++ encodeInteger rid ++ encodeInteger 1))).2.requestFinished rid).1 =
        true) :
    (∃ w', srv.ProcessRequest w ctx req out =
      .ok (some (out.getD [] ++ encodeInteger rid ++ encodeInteger 0), w')) ∧
    (∀ (w2 : World) (ctx2 : Nat) (req2 out2 : Slice) (p2 : List Byte),
      decodeHeader req2 = some (0, 0, 1, p2) →
      ∃ w', srv.ProcessRequest w2 ctx2 req2 out2 = .ok (none, w')) := by
  have hr := decodeHeader_isInt64 req rid sid fid p hd
  obtain ⟨hs, hf⟩ := find_registered services srv c0 hsrv svc hm
  rw [hid] at hs hf
  constructor
  · rw [ProcessRequest_service srv w ctx req out rid sid fid p svc hd hs hf,
      successHeader_pos out rid hr hpos, callFunctionOnService_eq, hc]
    exact ⟨_, finishRequest_absent out rid hr hpos _⟩
  · intro w2 ctx2 req2 out2 p2 hd2
    rw [ProcessRequest_eq, hd2]
    obtain ⟨r, w', h⟩ := handleService_total srv w2 ctx2 0 0 1 (some p2) (successHeader out2 0)
    exact ⟨w', by simp [h, finishRequest]⟩

set_option maxRecDepth 100000 in
theorem cancelled_call_witness :
    (NewServer [waitService 1 [0, 0, 1, 1]] =
        .ok (Server.mk [waitService 1 [0, 0, 1, 1]], canceller.new) ∧
      decodeHeader (some [1, 1, 3]) = some (1, 1, 3, []) ∧ (1 : Int) > 0 ∧
      waitService 1 [0, 0, 1, 1] ∈ [waitService 1 [0, 0, 1, 1]] ∧
      (waitService 1 [0, 0, 1, 1]).GetServiceId = 1 ∧
      ((handlerRun (World.mk canceller.new []) 0 (waitService 1 [0, 0, 1, 1]) 1 3 []
        (some ((some [] : Slice).getD [] ++ encodeInteger 1 ++ encodeInteger 1))).2.requestFinished
          1).1 = true) ∧
    ((∃ w', (Server.mk [waitService 1 [0, 0, 1, 1]]).ProcessRequest (World.mk canceller.new []) 0
        (some [1, 1, 3]) (some []) = .ok (some [1, 0], w')) ∧
    (∀ (w2 : World) (ctx2 : Nat) (req2 out2 : Slice) (p2 : List Byte),
      decodeHeader req2 = some (0, 0, 1, p2) →
      ∃ w', (Server.mk [waitService 1 [0, 0, 1, 1]]).ProcessRequest w2 ctx2 req2 out2 =
        .ok (none, w'))) :=
  ⟨⟨rfl, by decide, by decide, by simp, rfl, by decide⟩,
    cancelled_call [waitService 1 [0, 0, 1, 1]] (Server.mk [waitService 1 [0, 0, 1, 1]])
      canceller.new rfl (World.mk canceller.new []) 0 (some [1, 1, 3]) (some []) 1 1 3 []
      (waitService 1 [0, 0, 1, 1]) (by decide) (by decide) (by simp) rfl (by decide)⟩

/-- C16: one-way service call. For every request with a well-formed header and
`requestId <= 0` addressed to a service registered with the server, the handler is still
invoked exactly once, with the decoded function id, the remaining payload bytes and the
discard (nil) buffer, and the registry is left as the handler and `requestFinished` leave it,
while `ProcessRequest` returns absent whatever the handler returns. -/
theorem one_way_service_call (services : List ServerService) (srv : Server) (c0 : canceller)
    (hsrv : NewServer services = .ok (srv, c0)) (w : World) (ctx : Nat) (req out : Slice)
    (rid sid fid : Int) (p : List Byte) (svc : ServerService)
    (hd : decodeHeader req = some (rid, sid, fid, p)) (hpos : rid ≤ 0)
    (hm : svc ∈ services) (hid : svc.GetServiceId = sid) :
    ∃ w', srv.ProcessRequest w ctx req out = .ok (none, w') ∧
      w'.calls = callRecord w ctx svc rid fid p none :: w.calls ∧
      w'.canceller = ((handlerRun w ctx svc rid fid p none).2.requestFinished rid).2 := by
  obtain ⟨hs, hf⟩ := find_registered services srv c0 hsrv svc hm
  rw [hid] at hs hf
  rw [ProcessRequest_service srv w ctx req out rid sid fid p svc hd hs hf,
    successHeader_nonpos out rid hpos, callFunctionOnService_eq]
  refine ⟨World.mk ((handlerRun w ctx svc rid fid p none).2.requestFinished rid).2
    (callRecord w ctx svc rid fid p none :: w.calls), ?_, rfl, rfl⟩
  simp [finishRequest, hpos]

set_option maxRecDepth 100000 in
theorem one_way_service_call_witness :
    (NewServer [addService 1] = .ok (Server.mk [addService 1], canceller.new) ∧
      decodeHeader (some [0, 1, 2, 11, 4]) = some (0, 1, 2, [11, 4]) ∧ (0 : Int) ≤ 0 ∧
      addService 1 ∈ [addService 1] ∧ (addService 1).GetServiceId = 1) ∧
    ∃ w', (Server.mk [addService 1]).ProcessRequest (World.mk canceller.new []) 0
        (some [0, 1, 2, 11, 4]) (some []) = .ok (none, w') ∧
      w'.calls = [Call.mk 1 0 2 (some [11, 4]) none] ∧
      w'.canceller = canceller.mk [] [] 1 :=
  ⟨⟨rfl, by decide, by decide, by simp, rfl⟩,
    one_way_service_call [addService 1] (Server.mk [addService 1]) canceller.new rfl
      (World.mk canceller.new []) 0 (some [0, 1, 2, 11, 4]) (some []) 0 1 2 [11, 4]
      (addService 1) (by decide) (by decide) (by simp) rfl⟩

/-! ## Claims on the built-in functions and on construction -/

/-- C13: list services. For every server whose services `s1..sn` have int64 ids, every
`requestId > 0`, output buffer `out` and payload, the request `(requestId, service 0,
function 0)` returns `out ++ SerializeInteger([], requestId) ++ SerializeInteger([], 1) ++
SerializeInteger([], n)` followed, for each `si` in registration order, by
`SerializeInteger([], si.serviceId) ++ SerializeString([], si.revision)`, and leaves the state
as it was; with no services the body is the single byte 0. -/
theorem list_services (srv : Server) (w : World) (ctx : Nat) (req out : Slice) (rid : Int)
    (p : List Byte) (hd : decodeHeader req = some (rid, 0, 0, p)) (hpos : rid > 0)
    (hids : ∀ s ∈ srv.services, isInt64 s.GetServiceId) :
    srv.ProcessRequest w ctx req out =
      .ok (some (out.getD [] ++ encodeInteger rid ++ encodeInteger 1 ++
        (encodeInteger (int64 srv.services.length) ++ serviceEntries srv.services)), w) ∧
    encodeInteger (int64 ([] : List ServerService).length) ++ serviceEntries [] = [0] := by
  have hr := decodeHeader_isInt64 req rid 0 0 p hd
  refine ⟨?_, by decide⟩
  rw [ProcessRequest_builtin srv w ctx req out rid 0 p hd, successHeader_pos out rid hr hpos]
  simp only [Server.callFunctionOnServer, if_true, pure, Except.pure]
  rw [handleServerRequestGetServices_some srv _ hids, finishRequest_some out rid hpos]
  simp


theorem list_services_witness :
    (decodeHeader (some [12, 0, 0]) = some (12, 0, 0, []) ∧ (12 : Int) > 0 ∧
      ∀ s ∈ (Server.mk [addService 6, addService 9]).services, isInt64 s.GetServiceId) ∧
    ((Server.mk [addService 6, addService 9]).ProcessRequest (World.mk canceller.new []) 0
        (some [12, 0, 0]) (some []) =
      .ok (some ((some [] : Slice).getD [] ++ encodeInteger 12 ++ encodeInteger 1 ++
        (encodeInteger (int64 (Server.mk [addService 6, addService 9]).services.length) ++
          serviceEntries (Server.mk [addService 6, addService 9]).services)),
        World.mk canceller.new []) ∧
    encodeInteger (int64 ([] : List ServerService).length) ++ serviceEntries [] = [0]) :=
  ⟨⟨by decide, by decide, by
      intro s hs
      simp only [List.mem_cons, List.mem_singleton, List.not_mem_nil, or_false] at hs
      rcases hs with rfl | rfl <;> decide⟩,
    list_services (Server.mk [addService 6, addService 9]) (World.mk canceller.new []) 0
      (some [12, 0, 0]) (some []) 12 [] (by decide) (by decide) (by
        intro s hs
        simp only [List.mem_cons, List.mem_singleton, List.not_mem_nil, or_false] at hs
        rcases hs with rfl | rfl <;> decide)⟩

/-- C14: echo. For every `requestId > 0`, output buffer `out`, int64 `wt` and byte sequence
`rest`, the request `(requestId, service 0, function 2)` with payload
`SerializeInteger([], wt) ++ rest` returns
`out ++ SerializeInteger([], requestId) ++ SerializeInteger([], 1) ++ rest`, the payload bytes
after the wait-time integer, verbatim, and leaves the state as it was (the wait itself is not
part of the model). -/
theorem echo_builtin (srv : Server) (w : World) (ctx : Nat) (req out : Slice) (rid wt : Int)
    (rest : List Byte) (hd : decodeHeader req = some (rid, 0, 2, encodeInteger wt ++ rest))
    (hpos : rid > 0) (hw : isInt64 wt) :
    srv.ProcessRequest w ctx req out =
      .ok (some (out.getD [] ++ encodeInteger rid ++ encodeInteger 1 ++ rest), w) := by
  have hr := decodeHeader_isInt64 req rid 0 2 _ hd
  rw [ProcessRequest_builtin srv w ctx req out rid 2 _ hd, successHeader_pos out rid hr hpos]
  simp only [Server.callFunctionOnServer, Server.handleServerRequestEcho,
    DeserializeInteger_encodeInteger wt hw rest, bind, Except.bind, pure, Except.pure]
  simp only [show ¬ ((2 : Int) = 0) by decide, show ¬ ((2 : Int) = 1) by decide, if_false, if_true]
  cases rest with
  | nil => simp [goAppend, finishRequest_some out rid hpos]
  | cons x xs =>
    rw [Option.getD_some, goAppend_cons, Option.getD_some, finishRequest_some out rid hpos]

theorem echo_builtin_witness :
    (decodeHeader (some [1, 0, 2, 0x20, 100, 4, 97, 115, 100, 102]) =
        some (1, 0, 2, encodeInteger 100 ++ [4, 97, 115, 100, 102]) ∧
      (1 : Int) > 0 ∧ isInt64 100) ∧
    (Server.mk []).ProcessRequest (World.mk canceller.new []) 0
        (some [1, 0, 2, 0x20, 100, 4, 97, 115, 100, 102]) (some []) =
      .ok (some ((some [] : Slice).getD [] ++ encodeInteger 1 ++ encodeInteger 1 ++
        [4, 97, 115, 100, 102]), World.mk canceller.new []) :=
  ⟨⟨by decide, by decide, by decide⟩,
    echo_builtin (Server.mk []) (World.mk canceller.new []) 0
      (some [1, 0, 2, 0x20, 100, 4, 97, 115, 100, 102]) (some []) 1 100 [4, 97, 115, 100, 102]
      (by decide) (by decide) (by decide)⟩

/-- C15: cancel built-in. A request `(requestId, service 0, function 1)` whose payload begins
with a decodable integer `t` removes `t`'s entry from the registry, invoking its trigger, if it
is present, and leaves every other registry entry unchanged (and the whole registry when `t`
has no entry); if the payload does not decode, the registry is left unchanged; no handler is
invoked, and in both cases the response carries no body:
`out ++ SerializeInteger([], requestId) ++ SerializeInteger([], 1)` when `requestId > 0`,
absent when `requestId <= 0`. -/
theorem cancel_builtin (srv : Server) (w : World) (ctx : Nat) (req out : Slice) (rid : Int)
    (p : List Byte) (hd : decodeHeader req = some (rid, 0, 1, p)) :
    ∃ w', srv.ProcessRequest w ctx req out =
        .ok (if rid > 0 then some (out.getD [] ++ encodeInteger rid ++ encodeInteger 1) else none,
          w') ∧
      w'.calls = w.calls ∧
      (∀ r t, DeserializeInteger (some p) = .ok (some r, t) →
        w'.canceller.find t = none ∧
        (∀ k, k ≠ t → w'.canceller.find k = w.canceller.find k) ∧
        (∀ cancel, w.canceller.find t = some cancel →
          w'.canceller.fired = cancel :: w.canceller.fired) ∧
        (w.canceller.find t = none → w'.canceller = w.canceller)) ∧
      (DeserializeInteger (some p) = .ok (none, 0) → w'.canceller = w.canceller) := by
  rcases DeserializeInteger_total (some p) with h | ⟨r, t, h⟩
  · have hc : srv.handleServerRequestCancel w.canceller (some p) = .ok w.canceller := by
      simp [Server.handleServerRequestCancel, h, bind, Except.bind, pure, Except.pure]
    refine ⟨_, cancel_builtin_step srv w ctx req out rid p hd _ hc, rfl, ?_, fun _ => rfl⟩
    intro r t h'
    rw [h] at h'
    simp at h'
  · have hc : srv.handleServerRequestCancel w.canceller (some p) =
        .ok (w.canceller.cancelRequest t).2 := by
      simp [Server.handleServerRequestCancel, h, bind, Except.bind, pure, Except.pure]
    refine ⟨_, cancel_builtin_step srv w ctx req out rid p hd _ hc, rfl, ?_, ?_⟩
    · intro r' t' h'
      rw [h] at h'
      simp only [Except.ok.injEq, Prod.mk.injEq, Option.some.injEq] at h'
      obtain ⟨_, rfl⟩ := h'
      obtain ⟨h1, h2, h3, h4, _⟩ := cancelRequest_spec w.canceller t
      refine ⟨h1, h2, fun cancel hf => (h3 cancel hf).2, fun hn => ?_⟩
      show (w.canceller.cancelRequest t).2 = w.canceller
      rw [h4 hn]
    · intro h'
      rw [h] at h'
      simp at h'

theorem cancel_builtin_witness :
    decodeHeader (some [0, 0, 1, 5]) = some (0, 0, 1, [5]) ∧
    ∃ w', (Server.mk []).ProcessRequest (World.mk (canceller.mk [(5, 3), (6, 4)] [] 7) []) 0
          (some [0, 0, 1, 5]) (some [9]) =
        .ok (if (0 : Int) > 0 then
            some ((some [9] : Slice).getD [] ++ encodeInteger 0 ++ encodeInteger 1) else none,
          w') ∧
      w'.calls = (World.mk (canceller.mk [(5, 3), (6, 4)] [] 7) []).calls ∧
      (∀ r t, DeserializeInteger (some [5]) = .ok (some r, t) →
        w'.canceller.find t = none ∧
        (∀ k, k ≠ t → w'.canceller.find k =
          (World.mk (canceller.mk [(5, 3), (6, 4)] [] 7) []).canceller.find k) ∧
        (∀ cancel, (World.mk (canceller.mk [(5, 3), (6, 4)] [] 7) []).canceller.find t =
            some cancel →
          w'.canceller.fired =
            cancel :: (World.mk (canceller.mk [(5, 3), (6, 4)] [] 7) []).canceller.fired) ∧
        ((World.mk (canceller.mk [(5, 3), (6, 4)] [] 7) []).canceller.find t = none →
          w'.canceller = (World.mk (canceller.mk [(5, 3), (6, 4)] [] 7) []).canceller)) ∧
      (DeserializeInteger (some [5]) = .ok (none, 0) →
        w'.canceller = (World.mk (canceller.mk [(5, 3), (6, 4)] [] 7) []).canceller) :=
  ⟨by decide,
    cancel_builtin (Server.mk []) (World.mk (canceller.mk [(5, 3), (6, 4)] [] 7) []) 0
      (some [0, 0, 1, 5]) (some [9]) 0 [5] (by decide)⟩

/-- C17: `NewServer(services)` returns an error if and only if some service has
`serviceId <= 0` or two services in the list share a `serviceId`; revisions play no role (a
list with the same ids in the same order is rejected or accepted alike), and on success the
server holds exactly the given services in the given order, with an empty registry. -/
theorem new_server_error_iff (services : List ServerService) :
    ((∃ e, NewServer services = .error e) ↔
      (∃ s ∈ services, s.GetServiceId ≤ 0) ∨ ¬ (services.map (·.GetServiceId)).Nodup) ∧
    (∀ srv c, NewServer services = .ok (srv, c) → srv.services = services ∧ c = canceller.new) ∧
    (∀ services' : List ServerService,
      services'.map (·.GetServiceId) = services.map (·.GetServiceId) →
      ((∃ e, NewServer services' = .error e) ↔ ∃ e, NewServer services = .error e)) := by
  refine ⟨NewServer_error_iff services, ?_, ?_⟩
  · intro srv c h
    have := (NewServer_ok_iff services srv c).1 h
    exact ⟨this.2.2.1, this.2.2.2⟩
  · intro services' hmap
    have hneg : ∀ l : List ServerService,
        (∃ s ∈ l, s.GetServiceId ≤ 0) ↔ ∃ x ∈ l.map (·.GetServiceId), x ≤ 0 := by
      intro l
      simp
    rw [NewServer_error_iff, NewServer_error_iff, hneg, hneg, hmap]

/-- C18: registry exclusive ownership, sequentially. After `addRequest(id)`, for either order
of `cancelRequest(id)` and `requestFinished(id)` exactly one of them observes the entry as
present: if `requestFinished` runs first it removes the entry and returns false, and the later
`cancelRequest` is a no-op returning false that invokes no trigger; if `cancelRequest` runs
first it removes the entry, invokes the trigger and returns true, and the later
`requestFinished` returns true (already removed) and changes nothing. -/
theorem registry_exclusive_ownership (c : canceller) (ctx : Nat) (id : Int) :
    ((c.addRequest ctx id).2.find id = some (c.addRequest ctx id).1) ∧
    (((c.addRequest ctx id).2.requestFinished id).1 = false ∧
      ((c.addRequest ctx id).2.requestFinished id).2.find id = none ∧
      (((c.addRequest ctx id).2.requestFinished id).2.cancelRequest id) =
        (false, ((c.addRequest ctx id).2.requestFinished id).2) ∧
      ((c.addRequest ctx id).2.requestFinished id).2.fired = c.fired) ∧
    (((c.addRequest ctx id).2.cancelRequest id).1 = true ∧
      ((c.addRequest ctx id).2.cancelRequest id).2.find id = none ∧
      ((c.addRequest ctx id).2.cancelRequest id).2.fired = (c.addRequest ctx id).1 :: c.fired ∧
      (((c.addRequest ctx id).2.cancelRequest id).2.requestFinished id) =
        (true, ((c.addRequest ctx id).2.cancelRequest id).2)) := by
  have hfind := find_addRequest_self c ctx id
  have hctx : (c.addRequest ctx id).1 = c.nextCtx := rfl
  have hfired : (c.addRequest ctx id).2.fired = c.fired := rfl
  refine ⟨by rw [hfind, hctx], ?_, ?_⟩
  · rw [requestFinished_of_some _ id _ hfind]
    exact ⟨rfl, find_delete_self _ id,
      cancelRequest_of_none _ id (find_delete_self _ id), hfired⟩
  · rw [cancelRequest_of_some _ id _ hfind]
    refine ⟨rfl, find_delete_self _ id, by rw [hfired, hctx], ?_⟩
    exact requestFinished_of_none _ id (find_delete_self _ id)

/-! ## Claims on the decoder's arithmetic and on canonical size -/

/-- C19: overflow guard. For every input on which `DeserializeInteger` succeeds, the unsigned
magnitude that `deserializeIntegerImplNoSign` reconstructs equals the big-endian accumulation
over the natural numbers (the uint64 accumulation never wraps) and is `< 2^63`, so the
conversion to int64 and the negative transform do not overflow: the returned value is `m`, or
`-m-1` when the sign bit of the first byte is set, as a mathematical integer, and lies in the
int64 range. -/
theorem overflow_guard (b : Slice) (r : List Byte) (v : Int)
    (h : DeserializeInteger b = .ok (some r, v)) :
    deserializeIntegerImplNoSign b = .ok (some r, decodedMagnitude (b.getD [])) ∧
    decodedMagnitude (b.getD []) < 2 ^ 63 ∧
    v = signedValue (((b.getD []).headD 0).val / 128) (decodedMagnitude (b.getD [])) ∧
    isInt64 v := by
  cases b with
  | none => simp [DeserializeInteger_nil] at h
  | some l =>
    obtain ⟨h1, h2, h3⟩ := DeserializeInteger_some_magnitude l r v h
    exact ⟨h1, h2, h3, (DeserializeInteger_some_inv (some l) r v h).1⟩

theorem overflow_guard_witness :
    DeserializeInteger (some [0xfc, 0x7f, 0xff, 0xff, 0xff, 0xff, 0xff, 0xff, 0xff]) =
      .ok (some [], -9223372036854775808) ∧
    (deserializeIntegerImplNoSign (some [0xfc, 0x7f, 0xff, 0xff, 0xff, 0xff, 0xff, 0xff, 0xff]) =
      .ok (some [], decodedMagnitude
        ((some [0xfc, 0x7f, 0xff, 0xff, 0xff, 0xff, 0xff, 0xff, 0xff] : Slice).getD [])) ∧
    decodedMagnitude
      ((some [0xfc, 0x7f, 0xff, 0xff, 0xff, 0xff, 0xff, 0xff, 0xff] : Slice).getD []) < 2 ^ 63 ∧
    (-9223372036854775808 : Int) = signedValue
      ((((some [0xfc, 0x7f, 0xff, 0xff, 0xff, 0xff, 0xff, 0xff, 0xff] : Slice).getD []).headD
        0).val / 128)
      (decodedMagnitude
        ((some [0xfc, 0x7f, 0xff, 0xff, 0xff, 0xff, 0xff, 0xff, 0xff] : Slice).getD [])) ∧
    isInt64 (-9223372036854775808)) :=
  ⟨by decide, overflow_guard (some [0xfc, 0x7f, 0xff, 0xff, 0xff, 0xff, 0xff, 0xff, 0xff]) []
    (-9223372036854775808) (by decide)⟩

/-- C20: canonical minimal size. For every byte sequence `b` on which `DeserializeInteger`
succeeds with value `v` and remainder `r`, that is after consuming `n = len(b) - len(r)`
bytes, `len(SerializeInteger([], v)) <= n`: no byte sequence that decodes to `v` is shorter
than the encoder's output for `v`. -/
theorem canonical_minimal_size (b : Slice) (r : List Byte) (v : Int)
    (h : DeserializeInteger b = .ok (some r, v)) :
    (∃ enc, SerializeInteger (some []) v = some enc ∧ enc.length + r.length ≤ b.len) ∧
    ∃ consumed, b = some (consumed ++ r) ∧ (encodeInteger v).length ≤ consumed.length := by
  obtain ⟨hv, pre, _, hb⟩ := DeserializeInteger_some_inv b r v h
  subst hb
  have hle := encodeInteger_length_le_consumed (pre ++ r) r v h
  refine ⟨⟨encodeInteger v, ?_, hle⟩, pre, rfl, ?_⟩
  · rw [SerializeInteger_append (some []) v hv]; simp
  · simp only [List.length_append] at hle
    omega

theorem canonical_minimal_size_witness :
    DeserializeInteger (some [0x70, 0, 0, 0, 0, 0x11, 9]) = .ok (some [9], 17) ∧
    ((∃ enc, SerializeInteger (some []) 17 = some enc ∧
      enc.length + ([9] : List Byte).length ≤ Slice.len (some [0x70, 0, 0, 0, 0, 0x11, 9])) ∧
    ∃ consumed, (some [0x70, 0, 0, 0, 0, 0x11, 9] : Slice) = some (consumed ++ [9]) ∧
      (encodeInteger 17).length ≤ consumed.length) :=
  ⟨by decide, canonical_minimal_size (some [0x70, 0, 0, 0, 0, 0x11, 9]) [9] 17 (by decide)⟩

/-! ## Claims on the sign offset -/

/-- C21: sign offset. For every int64 `v >= 0`, `SerializeInteger([], -v-1)` equals
`SerializeInteger([], v)` except that the top bit (0x80) of the first byte, clear in the
encoding of `v`, is set: every other bit and byte is identical. In particular the encodings
of `0` and `-1` are `[0x00]` and `[0x80]`, and decoding `[0x80]` yields `-1`. -/
theorem sign_offset (v : Int) (h0 : 0 ≤ v) (hv : isInt64 v) :
    (∃ b0 b0' tl, SerializeInteger (some []) v = some (b0 :: tl) ∧
      SerializeInteger (some []) (-v - 1) = some (b0' :: tl) ∧
      b0.val &&& 0x80 = 0 ∧ b0'.val = b0.val ||| 0x80) ∧
    SerializeInteger (some []) 0 = some [0x00] ∧
    SerializeInteger (some []) (-1) = some [0x80] ∧
    DeserializeInteger (some [0x80]) = .ok (some [], -1) := by
  refine ⟨?_, by decide, by decide, by decide⟩
  have hv' : isInt64 (-v - 1) := by unfold isInt64 at *; omega
  obtain ⟨md, low, tl, hmd, hl, e1, e2⟩ := encodeInteger_pair v h0 hv
  obtain ⟨s1, s2⟩ := firstByte_sign md low hmd hl
  refine ⟨firstByte 0 md low, firstByte 1 md low, tl, ?_, ?_, s1, s2⟩
  · rw [SerializeInteger_append (some []) v hv, e1]; rfl
  · rw [SerializeInteger_append (some []) _ hv', e2]; rfl

theorem sign_offset_witness :
    ((0 : Int) ≤ 0x1234567 ∧ isInt64 0x1234567) ∧
    ((∃ b0 b0' tl, SerializeInteger (some []) 0x1234567 = some (b0 :: tl) ∧
      SerializeInteger (some []) (-0x1234567 - 1) = some (b0' :: tl) ∧
      b0.val &&& 0x80 = 0 ∧ b0'.val = b0.val ||| 0x80) ∧
    SerializeInteger (some []) 0 = some [0x00] ∧
    SerializeInteger (some []) (-1) = some [0x80] ∧
    DeserializeInteger (some [0x80]) = .ok (some [], -1)) :=
  ⟨⟨by decide, by decide⟩, sign_offset 0x1234567 (by decide) (by decide)⟩

/-! ## Claims on the encoder's temporary buffer -/

/-- C22: encoding never fails and is 1 to 9 bytes long. For every int64 `v`,
`SerializeInteger(buf, v)` is `buf` followed by between 1 and 9 bytes; and whenever it reaches
mode 11 (magnitude at least `0x200000`) the byte count computed by the loop lies between 3 and
8, never 0 and never more than 8, so that the mode 11 block with every access to the 9-byte
temporary buffer checked raises no fault and gives the same result. -/
theorem encoding_never_fails (buf : Slice) (v : Int) (hv : isInt64 v) :
    (∃ enc, SerializeInteger buf v = some (buf.getD [] ++ enc) ∧
      1 ≤ enc.length ∧ enc.length ≤ 9) ∧
    (2097152 ≤ magnitude v →
      3 ≤ (mode11Loop (magnitude v) 0 (List.replicate 9 0)).2.1 ∧
      (mode11Loop (magnitude v) 0 (List.replicate 9 0)).2.1 ≤ 8 ∧
      mode11Checked buf (signBit v * 128) (magnitude v) = .ok (SerializeInteger buf v)) := by
  obtain ⟨h1, h9⟩ := encodeInteger_length_bounds v hv
  refine ⟨⟨encodeInteger v, SerializeInteger_append buf v hv, h1, h9⟩, ?_⟩
  intro h0
  obtain ⟨e, b3, b8⟩ := mode11Checked_eq buf v hv h0
  exact ⟨b3, b8, e⟩

theorem encoding_never_fails_witness :
    isInt64 (-0x1234567890abcdef) ∧
    ((∃ enc, SerializeInteger (some [6]) (-0x1234567890abcdef) =
        some ((some [6] : Slice).getD [] ++ enc) ∧ 1 ≤ enc.length ∧ enc.length ≤ 9) ∧
    (2097152 ≤ magnitude (-0x1234567890abcdef) →
      3 ≤ (mode11Loop (magnitude (-0x1234567890abcdef)) 0 (List.replicate 9 0)).2.1 ∧
      (mode11Loop (magnitude (-0x1234567890abcdef)) 0 (List.replicate 9 0)).2.1 ≤ 8 ∧
      mode11Checked (some [6]) (signBit (-0x1234567890abcdef) * 128)
          (magnitude (-0x1234567890abcdef)) =
        .ok (SerializeInteger (some [6]) (-0x1234567890abcdef)))) :=
  ⟨by decide, encoding_never_fails (some [6]) (-0x1234567890abcdef) (by decide)⟩

/-! ## Claims on parse errors inside a function -/

/-- C24, as stated, fails: the echo request `(1, service 0, function 2)` with an empty
payload, which does not begin with a decodable integer, on the output buffer `{9}` returns the
success response `{9, 1, 1}` and not the failure response `{9} ++ enc(1) ++ enc(0)`. -/
theorem echo_parse_error_counterexample :
    decodeHeader (some [1, 0, 2]) = some (1, 0, 2, []) ∧
    DeserializeInteger (some []) = .ok (none, 0) ∧
    (Server.mk []).ProcessRequest (World.mk canceller.new []) 0 (some [1, 0, 2]) (some [9]) =
      .ok (some [9, 1, 1], World.mk canceller.new []) ∧
    ¬ ∃ w', (Server.mk []).ProcessRequest (World.mk canceller.new []) 0 (some [1, 0, 2])
        (some [9]) =
      .ok (some ((some [9] : Slice).getD [] ++ encodeInteger 1 ++ encodeInteger 0), w') := by
  refine ⟨by decide, by decide, by decide, ?_⟩
  rintro ⟨w', h⟩
  have h2 : (Server.mk []).ProcessRequest (World.mk canceller.new []) 0 (some [1, 0, 2])
      (some [9]) = .ok (some [9, 1, 1], World.mk canceller.new []) := by decide
  rw [h2] at h
  simp only [Except.ok.injEq, Prod.mk.injEq, Option.some.injEq] at h
  have h3 : ([9, 1, 1] : List Byte) ≠
      (some [9] : Slice).getD [] ++ encodeInteger 1 ++ encodeInteger 0 := by decide
  exact h3 h.1

/-- C24, amended: for every `requestId > 0` and output buffer `out`, an echo request
`(requestId, service 0, function 2)` whose payload does not begin with a decodable integer
(for example an empty payload) returns the success response
`out ++ SerializeInteger([], requestId) ++ SerializeInteger([], 1)` with an empty body, and
leaves the state as it was: the built-in does not look at the outcome of decoding the wait
time. -/
theorem echo_parse_error_is_success (srv : Server) (w : World) (ctx : Nat) (req out : Slice)
    (rid : Int) (p : List Byte) (hd : decodeHeader req = some (rid, 0, 2, p)) (hpos : rid > 0)
    (hp : DeserializeInteger (some p) = .ok (none, 0)) :
    srv.ProcessRequest w ctx req out =
      .ok (some (out.getD [] ++ encodeInteger rid ++ encodeInteger 1), w) :=
  echo_undecodable srv w ctx req out rid p hd hpos hp

theorem echo_parse_error_is_success_witness :
    (decodeHeader (some [1, 0, 2, 0x60]) = some (1, 0, 2, [0x60]) ∧ (1 : Int) > 0 ∧
      DeserializeInteger (some [0x60]) = .ok (none, 0)) ∧
    (Server.mk [addService 1]).ProcessRequest (World.mk canceller.new []) 0
        (some [1, 0, 2, 0x60]) (some [9]) =
      .ok (some ((some [9] : Slice).getD [] ++ encodeInteger 1 ++ encodeInteger 1),
        World.mk canceller.new []) :=
  ⟨⟨by decide, by decide, by decide⟩,
    echo_parse_error_is_success (Server.mk [addService 1]) (World.mk canceller.new []) 0
      (some [1, 0, 2, 0x60]) (some [9]) 1 [0x60] (by decide) (by decide) (by decide)⟩

/-! ## Claims on the lifetime of a registry entry -/

/-- C26: registry entry lifetime. For every service call made by `ProcessRequest` with
request id `r` (positive or not) to a service registered with the server whose handler leaves
the registry as it finds it, an entry for `r` exists when the handler starts and when it
returns, and after `ProcessRequest` returns the registry holds no entry for `r` and the entry
of every other id is exactly as before the call. -/
theorem registry_entry_lifetime (services : List ServerService) (srv : Server) (c0 : canceller)
    (hsrv : NewServer services = .ok (srv, c0)) (w : World) (ctx : Nat) (req out : Slice)
    (rid sid fid : Int) (p : List Byte) (svc : ServerService)
    (hd : decodeHeader req = some (rid, sid, fid, p))
    (hm : svc ∈ services) (hid : svc.GetServiceId = sid)
    (hquiet : ∀ ctx' f rq rs c, (svc.CallFunction ctx' f rq rs c).2 = c) :
    (w.canceller.addRequest ctx rid).2.find rid = some (w.canceller.addRequest ctx rid).1 ∧
    (handlerRun w ctx svc rid fid p (successHeader out rid)).2.find rid =
      some (w.canceller.addRequest ctx rid).1 ∧
    ∃ resp w', srv.ProcessRequest w ctx req out = .ok (resp, w') ∧
      w'.canceller.find rid = none ∧
      ∀ k, k ≠ rid → w'.canceller.find k = w.canceller.find k := by
  obtain ⟨hs, hf⟩ := find_registered services srv c0 hsrv svc hm
  rw [hid] at hs hf
  have hfind := find_addRequest_self w.canceller ctx rid
  have hrun : (handlerRun w ctx svc rid fid p (successHeader out rid)).2 =
      (w.canceller.addRequest ctx rid).2 := hquiet _ _ _ _ _
  refine ⟨hfind, by rw [hrun]; exact hfind, ?_⟩
  rw [ProcessRequest_service srv w ctx req out rid sid fid p svc hd hs hf,
    callFunctionOnService_eq, hrun, requestFinished_of_some _ rid _ hfind]
  obtain ⟨resp, hresp⟩ := finishRequest_world out rid
    (if (false, (w.canceller.addRequest ctx rid).2.delete rid).1 = true then none
      else (handlerRun w ctx svc rid fid p (successHeader out rid)).1)
    (World.mk (false, (w.canceller.addRequest ctx rid).2.delete rid).2
      (callRecord w ctx svc rid fid p (successHeader out rid) :: w.calls))
  refine ⟨resp, _, hresp, find_delete_self _ rid, ?_⟩
  intro k hk
  show ((w.canceller.addRequest ctx rid).2.delete rid).find k = w.canceller.find k
  rw [find_delete_ne _ rid k hk, find_addRequest_ne _ ctx rid k hk]

set_option maxRecDepth 100000 in
theorem registry_entry_lifetime_witness :
    (NewServer [absentService 7] = .ok (Server.mk [absentService 7], canceller.new) ∧
      decodeHeader (some [3, 7, 1]) = some (3, 7, 1, []) ∧
      absentService 7 ∈ [absentService 7] ∧ (absentService 7).GetServiceId = 7 ∧
      ∀ ctx' f rq rs c, ((absentService 7).CallFunction ctx' f rq rs c).2 = c) ∧
    (((World.mk (canceller.mk [(3, 0), (4, 1)] [] 2) []).canceller.addRequest 0 3).2.find 3 =
      some ((World.mk (canceller.mk [(3, 0), (4, 1)] [] 2) []).canceller.addRequest 0 3).1 ∧
    (handlerRun (World.mk (canceller.mk [(3, 0), (4, 1)] [] 2) []) 0 (absentService 7) 3 1 []
        (successHeader (some []) 3)).2.find 3 =
      some ((World.mk (canceller.mk [(3, 0), (4, 1)] [] 2) []).canceller.addRequest 0 3).1 ∧
    ∃ resp w', (Server.mk [absentService 7]).ProcessRequest
          (World.mk (canceller.mk [(3, 0), (4, 1)] [] 2) []) 0 (some [3, 7, 1]) (some []) =
        .ok (resp, w') ∧
      w'.canceller.find 3 = none ∧
      ∀ k, k ≠ 3 → w'.canceller.find k =
        (World.mk (canceller.mk [(3, 0), (4, 1)] [] 2) []).canceller.find k) :=
  ⟨⟨rfl, by decide, by simp, rfl, fun _ _ _ _ _ => rfl⟩,
    registry_entry_lifetime [absentService 7] (Server.mk [absentService 7]) canceller.new rfl
      (World.mk (canceller.mk [(3, 0), (4, 1)] [] 2) []) 0 (some [3, 7, 1]) (some []) 3 7 1 []
      (absentService 7) (by decide) (by simp) rfl (fun _ _ _ _ _ => rfl)⟩

/-! ## Claims on the error of `NewServer` -/

/-- C25: the invalid-id error does not identify the offending index. For the list of services
with ids `1, -5` the first service with a non-positive id is at index 1, yet the number in
"service at index %d has invalid id" is `-5`, the id; for ids `3, 0, -5` it is `0`, again the
id of the service at index 1. The collision error does name the indices: for ids `4, 6, 4` it
carries `0`, `2` and the shared id `4`. -/
theorem new_server_invalid_id_message :
    NewServer [absentService 1, absentService (-5)] = .error (.invalidId (-5)) ∧
    NewServer [absentService 3, absentService 0, absentService (-5)] = .error (.invalidId 0) ∧
    NewServer [absentService 4, absentService 6, absentService 4] = .error (.sameId 0 2 4) :=
  ⟨rfl, rfl, rfl⟩

end SimpleRpc
